import Mathlib

/-! JTAG TAP bit-level transport of the farpatch probe.

A shallow embedding of `src/components/blackmagic/jtagtap.c`.

The four signal lines are modelled by an instrumented line driver (`Probe`): it keeps the
current level of TMS, TDI and TCK, the history of the (TMS, TDI) levels that were present at
every rising edge of TCK, and a log of every action the code performs, in program order.
The macros `gpio_set_val`, `gpio_set`, `gpio_clear`, `gpio_get` and the variable
`swd_delay_cnt` are declared in `platform.h`, which is not part of the sources; they are
modelled from the line-driver interface of the specification (section 6).
-/

namespace Farpatch

/-- The signal lines the engine addresses through `TMS_PORT/TMS_PIN`, `TDI_PORT/TDI_PIN`,
`TCK_PORT/TCK_PIN` and `TDO_PORT/TDO_PIN`. -/
inductive Line where
  | TMS
  | TDI
  | TCK
  | TDO
  deriving DecidableEq, Repr

/-- The GPIO numbers named by the board configuration (`CONFIG_*_GPIO`). -/
inductive Gpio where
  | TDI
  | TDO
  | TMS_SWDIO
  | TCK_SWCLK
  | TMS_SWDIO_DIR
  deriving DecidableEq, Repr

/-- The five operations that can be installed in `jtag_proc`. -/
inductive Op where
  | jtagtap_reset
  | jtagtap_next
  | jtagtap_tms_seq
  | jtagtap_tdi_tdo_seq
  | jtagtap_tdi_seq
  deriving DecidableEq, Repr

/-- One entry of the instrumentation log. -/
inductive Action where
  /-- a write of a level to TMS, TDI or TCK -/
  | drive (l : Line) (level : Bool)
  /-- a read of TDO, with the level that was returned -/
  | sample (level : Bool)
  /-- one execution of a delay loop, with the number of times its empty body ran -/
  | wait (iters : Nat)
  /-- a read of byte `k` of the input buffer -/
  | load (k : Nat)
  /-- a write of `v` to byte `k` of the output buffer -/
  | store (k : Nat) (v : Nat)
  /-- `gpio_reset_pin` -/
  | resetPin (p : Gpio)
  /-- `gpio_set_direction`; `output = false` is `GPIO_MODE_INPUT` -/
  | direction (p : Gpio) (output : Bool)
  /-- `TMS_SET_MODE()` -/
  | tmsSetMode
  /-- an assignment to one entry of `jtag_proc` -/
  | install (entry : Op)
  deriving DecidableEq, Repr

/-- The transport handle `jtag_proc_s`: five operation entries, `none` while unset. -/
structure jtag_proc_s where
  jtagtap_reset : Option Op
  jtagtap_next : Option Op
  jtagtap_tms_seq : Option Op
  jtagtap_tdi_tdo_seq : Option Op
  jtagtap_tdi_seq : Option Op
  deriving DecidableEq, Repr

/-- The instrumented line driver together with the global `jtag_proc`. -/
structure Probe where
  /-- level currently driven on TMS -/
  tms : Bool
  /-- level currently driven on TDI -/
  tdi : Bool
  /-- level currently driven on TCK -/
  tck : Bool
  /-- the (TMS, TDI) levels present at each rising edge of TCK, oldest first -/
  edges : List (Bool × Bool)
  /-- every action performed, oldest first -/
  log : List Action
  /-- the global transport handle -/
  jtag_proc : jtag_proc_s
  deriving DecidableEq, Repr

/-- A deterministic target: the level it puts on TDO is a function of the levels currently
driven on TMS, TDI and TCK and of the history of (TMS, TDI) levels at TCK rising edges. -/
abbrev Target := Bool → Bool → Bool → List (Bool × Bool) → Bool

/-- Append one entry to the log. -/
def Probe.record (g : Probe) (a : Action) : Probe :=
  { g with log := g.log ++ [a] }

/-- Modelled from the spec: `setLine(signal, level)` of the line driver, which `platform.h`
(not in the sources) provides. Driving TCK from low to high is a rising edge and records
the levels of TMS and TDI present at that moment. TDO is an input and is not driven. -/
def setLine (l : Line) (level : Bool) (g : Probe) : Probe :=
  match l with
  | Line.TMS => { g with tms := level, log := g.log ++ [Action.drive Line.TMS level] }
  | Line.TDI => { g with tdi := level, log := g.log ++ [Action.drive Line.TDI level] }
  | Line.TCK =>
    { g with
      tck := level
      edges := if level && !g.tck then g.edges ++ [(g.tms, g.tdi)] else g.edges
      log := g.log ++ [Action.drive Line.TCK level] }
  | Line.TDO => g

/-- Modelled from the spec: the macro `gpio_set_val(port, pin, value)` of `platform.h`
(not in the sources): the line is driven high when `value` is non-zero, low otherwise. -/
def gpio_set_val (l : Line) (value : Nat) (g : Probe) : Probe :=
  setLine l (value != 0) g

/-- Modelled from the spec: the macro `gpio_set(port, pin)`, drive the line high. -/
def gpio_set (l : Line) (g : Probe) : Probe :=
  setLine l true g

/-- Modelled from the spec: the macro `gpio_clear(port, pin)`, drive the line low. -/
def gpio_clear (l : Line) (g : Probe) : Probe :=
  setLine l false g

/-- Modelled from the spec: the macro `gpio_get(TDO_PORT, TDO_PIN)`, `getLine` of the line
driver: the level the target puts on TDO, as 0 or 1. -/
def gpio_get (t : Target) (g : Probe) : Nat × Probe :=
  let level := t g.tms g.tdi g.tck g.edges
  (level.toNat, g.record (Action.sample level))

/-- The value of `(int32_t) x`. -/
def int32 (x : Int) : Int :=
  (x + 2147483648) % 4294967296 - 2147483648

/-- The loop `for (...; cnt > 0; cnt--) ;` entered with `cnt = n > 0` or `n = 0`:
the number of times the empty body runs, added to `iters`. -/
def count_down : Nat → Nat → Nat
  | 0, iters => iters
  | n + 1, iters => count_down n (iters + 1)

/-- The number of times the empty body of the delay loop
`for (cnt = swd_delay_cnt - 2; cnt > 0; cnt--) ;` runs, `cnt` being a `volatile int32_t`. -/
def iterations (swd_delay_cnt : Nat) : Nat :=
  let cnt : Int := int32 ((swd_delay_cnt : Int) - 2)
  count_down cnt.toNat 0

/-- The delay loop `for (cnt = swd_delay_cnt - 2; cnt > 0; cnt--) ;`. -/
def delay_loop (swd_delay_cnt : Nat) (g : Probe) : Probe :=
  g.record (Action.wait (iterations swd_delay_cnt))

/-- The function `jtagtap_next`. -/
def jtagtap_next (swd_delay_cnt : Nat) (t : Target) (dTMS dTDI : Bool) (g : Probe) :
    Bool × Probe :=
  let g := gpio_set_val Line.TMS dTMS.toNat g
  let g := gpio_set_val Line.TDI dTDI.toNat g
  let g := gpio_set Line.TCK g
  let g := delay_loop swd_delay_cnt g
  let r := gpio_get t g
  let ret := r.1 % 65536
  let g := gpio_clear Line.TCK r.2
  let g := delay_loop swd_delay_cnt g
  (ret != 0, g)

/-- The first `while (ticks)` loop of `jtagtap_tms_seq` (taken when `swd_delay_cnt` is
non-zero). `MS` is a `uint32_t`, `data` an `int`. -/
def tms_seq_delay (swd_delay_cnt : Nat) : Nat → Nat → Nat → Probe → Probe
  | 0, _, _, g => g
  | ticks + 1, MS, data, g =>
    let g := gpio_set_val Line.TMS data g
    let g := gpio_set Line.TCK g
    let g := delay_loop swd_delay_cnt g
    let MS := MS >>> 1
    let data := MS &&& 1
    let g := gpio_clear Line.TCK g
    let g := delay_loop swd_delay_cnt g
    tms_seq_delay swd_delay_cnt ticks MS data g

/-- The second `while (ticks)` loop of `jtagtap_tms_seq` (taken when `swd_delay_cnt` is
zero). -/
def tms_seq_no_delay : Nat → Nat → Nat → Probe → Probe
  | 0, _, _, g => g
  | ticks + 1, MS, data, g =>
    let g := gpio_set_val Line.TMS data g
    let g := gpio_set Line.TCK g
    let MS := MS >>> 1
    let data := MS &&& 1
    let g := gpio_clear Line.TCK g
    tms_seq_no_delay ticks MS data g

/-- The function `jtagtap_tms_seq`. The parameter `MS` is converted to `uint32_t`. -/
def jtagtap_tms_seq (swd_delay_cnt : Nat) (MS : Nat) (ticks : Nat) (g : Probe) : Probe :=
  let MS := MS % 4294967296
  let g := gpio_set_val Line.TDI 1 g
  let data := MS &&& 1
  if swd_delay_cnt != 0 then
    tms_seq_delay swd_delay_cnt ticks MS data g
  else
    tms_seq_no_delay ticks MS data g

/-- The local variables of `jtagtap_tdi_tdo_seq` and `jtagtap_tdi_seq`, the output buffer
and the line driver. `DI` and `DO` are the distances the two pointers have advanced. -/
structure Shift where
  /-- `uint8_t index` -/
  index : Nat
  /-- `uint8_t res` -/
  res : Nat
  /-- how far the pointer `DI` has been incremented -/
  DI : Nat
  /-- how far the pointer `DO` has been incremented -/
  DO : Nat
  /-- the bytes of the output buffer -/
  out : Nat → Nat
  /-- the line driver -/
  g : Probe

/-- The expression `*DI & index`: reads the input byte the pointer is at. -/
def load_and (buf : Nat → Nat) (s : Shift) : Nat × Probe :=
  (buf s.DI % 256 &&& s.index, s.g.record (Action.load s.DI))

/-- The statement `*DO = res`. -/
def store_res (s : Shift) : Shift :=
  { s with
    out := fun k => if k = s.DO then s.res else s.out k
    g := s.g.record (Action.store s.DO s.res) }

/-- The statement `if (gpio_get(TDO_PORT, TDO_PIN)) res |= index;`. -/
def sample_bit (t : Target) (s : Shift) : Shift :=
  let r := gpio_get t s.g
  if r.1 != 0 then { s with res := s.res ||| s.index, g := r.2 } else { s with g := r.2 }

/-- The statement `if (!(index <<= 1)) { *DO = res; res = 0; index = 1; DI++; DO++; }`
of `jtagtap_tdi_tdo_seq`. -/
def advance_tdo (s : Shift) : Shift :=
  let s := { s with index := (s.index <<< 1) % 256 }
  if s.index = 0 then
    let s := store_res s
    { s with res := 0, index := 1, DI := s.DI + 1, DO := s.DO + 1 }
  else s

/-- The statement `if (!(index <<= 1)) { index = 1; DI++; }` of `jtagtap_tdi_seq`. -/
def advance_tdi (s : Shift) : Shift :=
  let s := { s with index := (s.index <<< 1) % 256 }
  if s.index = 0 then { s with index := 1, DI := s.DI + 1 } else s

/-- The first `while (ticks > 1)` loop of `jtagtap_tdi_tdo_seq` (taken when
`swd_delay_cnt` is non-zero). -/
def tdi_tdo_seq_delay (swd_delay_cnt : Nat) (t : Target) (buf : Nat → Nat) :
    Nat → Shift → Shift
  | 0, s => s
  | 1, s => s
  | ticks + 2, s =>
    let v := load_and buf s
    let g := gpio_set_val Line.TDI v.1 v.2
    let g := gpio_set Line.TCK g
    let g := delay_loop swd_delay_cnt g
    let s := sample_bit t { s with g := g }
    let s := advance_tdo s
    let g := gpio_clear Line.TCK s.g
    let g := delay_loop swd_delay_cnt g
    tdi_tdo_seq_delay swd_delay_cnt t buf (ticks + 1) { s with g := g }

/-- The second `while (ticks > 1)` loop of `jtagtap_tdi_tdo_seq` (taken when
`swd_delay_cnt` is zero). -/
def tdi_tdo_seq_no_delay (t : Target) (buf : Nat → Nat) : Nat → Shift → Shift
  | 0, s => s
  | 1, s => s
  | ticks + 2, s =>
    let v := load_and buf s
    let g := gpio_set_val Line.TDI v.1 v.2
    let g := gpio_set Line.TCK g
    let s := sample_bit t { s with g := g }
    let s := advance_tdo s
    let g := gpio_clear Line.TCK s.g
    tdi_tdo_seq_no_delay t buf (ticks + 1) { s with g := g }

/-- The function `jtagtap_tdi_tdo_seq`. `buf` holds the bytes `DI` points at and `out` the
bytes `DO` points at, which are taken not to overlap; the result is the output buffer and
the line driver after the call. -/
def jtagtap_tdi_tdo_seq (swd_delay_cnt : Nat) (t : Target) (out : Nat → Nat)
    (final_tms : Bool) (buf : Nat → Nat) (ticks : Nat) (g : Probe) : (Nat → Nat) × Probe :=
  let g := gpio_set_val Line.TMS 0 g
  let s : Shift := { index := 1, res := 0, DI := 0, DO := 0, out := out, g := g }
  let s :=
    if swd_delay_cnt != 0 then tdi_tdo_seq_delay swd_delay_cnt t buf ticks s
    else tdi_tdo_seq_no_delay t buf ticks s
  let g := gpio_set_val Line.TMS final_tms.toNat s.g
  let v := load_and buf { s with g := g }
  let g := gpio_set_val Line.TDI v.1 v.2
  let g := gpio_set Line.TCK g
  let g := delay_loop swd_delay_cnt g
  let s := sample_bit t { s with g := g }
  let s := store_res s
  let g := gpio_clear Line.TCK s.g
  let g := delay_loop swd_delay_cnt g
  (s.out, g)

/-- The first `while (ticks--)` loop of `jtagtap_tdi_seq` (taken when `swd_delay_cnt` is
non-zero). The first argument is `ticks` when the loop condition is evaluated. -/
def tdi_seq_delay (swd_delay_cnt : Nat) (final_tms : Bool) (buf : Nat → Nat) :
    Nat → Shift → Shift
  | 0, s => s
  | ticks + 1, s =>
    let g := gpio_set_val Line.TMS (if ticks != 0 then 0 else final_tms.toNat) s.g
    let v := load_and buf { s with g := g }
    let g := gpio_set_val Line.TDI v.1 v.2
    let g := gpio_set Line.TCK g
    let g := delay_loop swd_delay_cnt g
    let s := advance_tdi { s with g := g }
    let g := gpio_clear Line.TCK s.g
    let g := delay_loop swd_delay_cnt g
    tdi_seq_delay swd_delay_cnt final_tms buf ticks { s with g := g }

/-- The second `while (ticks--)` loop of `jtagtap_tdi_seq` (taken when `swd_delay_cnt` is
zero). -/
def tdi_seq_no_delay (final_tms : Bool) (buf : Nat → Nat) : Nat → Shift → Shift
  | 0, s => s
  | ticks + 1, s =>
    let g := gpio_set_val Line.TMS (if ticks != 0 then 0 else final_tms.toNat) s.g
    let v := load_and buf { s with g := g }
    let g := gpio_set_val Line.TDI v.1 v.2
    let g := gpio_set Line.TCK g
    let s := advance_tdi { s with g := g }
    let g := gpio_clear Line.TCK s.g
    tdi_seq_no_delay final_tms buf ticks { s with g := g }

/-- The function `jtagtap_tdi_seq`. It has no output buffer and no `res`; the fields
`res`, `DO` and `out` of the loop state are never touched. -/
def jtagtap_tdi_seq (swd_delay_cnt : Nat) (final_tms : Bool) (buf : Nat → Nat)
    (ticks : Nat) (g : Probe) : Probe :=
  let s : Shift := { index := 1, res := 0, DI := 0, DO := 0, out := fun _ => 0, g := g }
  let s :=
    if swd_delay_cnt != 0 then tdi_seq_delay swd_delay_cnt final_tms buf ticks s
    else tdi_seq_no_delay final_tms buf ticks s
  s.g

/-- Modelled from the spec: `reset(signal)` of the line driver (`gpio_reset_pin`, an SDK
function that is not in the sources). Only the call is recorded. -/
def gpio_reset_pin (p : Gpio) (g : Probe) : Probe :=
  g.record (Action.resetPin p)

/-- Modelled from the spec: `configureDirection(signal, direction)` of the line driver
(`gpio_set_direction`, an SDK function that is not in the sources). Only the call is
recorded. -/
def gpio_set_direction (p : Gpio) (output : Bool) (g : Probe) : Probe :=
  g.record (Action.direction p output)

/-- Modelled from the spec: the macro `TMS_SET_MODE()` of `platform.h` (not in the sources),
which points the level shifter so that the probe drives the target. Only the call is
recorded. -/
def TMS_SET_MODE (g : Probe) : Probe :=
  g.record Action.tmsSetMode

/-- The five assignments to `jtag_proc` in `jtagtap_init`. -/
def install_jtag_proc (g : Probe) : Probe :=
  let g := { g with
    jtag_proc := { g.jtag_proc with jtagtap_reset := some Op.jtagtap_reset }
    log := g.log ++ [Action.install Op.jtagtap_reset] }
  let g := { g with
    jtag_proc := { g.jtag_proc with jtagtap_next := some Op.jtagtap_next }
    log := g.log ++ [Action.install Op.jtagtap_next] }
  let g := { g with
    jtag_proc := { g.jtag_proc with jtagtap_tms_seq := some Op.jtagtap_tms_seq }
    log := g.log ++ [Action.install Op.jtagtap_tms_seq] }
  let g := { g with
    jtag_proc := { g.jtag_proc with jtagtap_tdi_tdo_seq := some Op.jtagtap_tdi_tdo_seq }
    log := g.log ++ [Action.install Op.jtagtap_tdi_tdo_seq] }
  { g with
    jtag_proc := { g.jtag_proc with jtagtap_tdi_seq := some Op.jtagtap_tdi_seq }
    log := g.log ++ [Action.install Op.jtagtap_tdi_seq] }

/-- The loop `for (int i = 0; i <= 50; i++) jtagtap_next(1, 0);` of `jtagtap_init`, entered
with the given value of `i`. -/
def init_next_loop (swd_delay_cnt : Nat) (t : Target) (i : Nat) (g : Probe) : Probe :=
  if i ≤ 50 then
    init_next_loop swd_delay_cnt t (i + 1) (jtagtap_next swd_delay_cnt t true false g).2
  else g
termination_by 51 - i
decreasing_by omega

/-- The function `jtagtap_init`. `CONFIG_TMS_SWDIO_DIR_GPIO` is a board constant and
`jtagtap_soft_reset` a helper of `jtagtap.h`; neither is in the sources and both are
parameters. -/
def jtagtap_init (swd_delay_cnt : Nat) (t : Target) ( CONFIG_TMS_SWDIO_DIR_GPIO : Int)
    (jtagtap_soft_reset : Probe → Probe) (g : Probe) : Probe :=
  let g := gpio_reset_pin Gpio.TDI g
  let g := gpio_reset_pin Gpio.TDO g
  let g := gpio_reset_pin Gpio.TMS_SWDIO g
  let g := gpio_reset_pin Gpio.TCK_SWCLK g
  let g := if CONFIG_TMS_SWDIO_DIR_GPIO ≥ 0 then gpio_reset_pin Gpio.TMS_SWDIO_DIR g else g
  let g := gpio_set_direction Gpio.TDI true g
  let g := gpio_set_direction Gpio.TDO false g
  let g := gpio_set_direction Gpio.TMS_SWDIO true g
  let g := gpio_set_direction Gpio.TCK_SWCLK true g
  let g :=
    if CONFIG_TMS_SWDIO_DIR_GPIO ≥ 0 then gpio_set_direction Gpio.TMS_SWDIO_DIR true g else g
  let g := TMS_SET_MODE g
  let g := install_jtag_proc g
  let g := init_next_loop swd_delay_cnt t 0 g
  let g := jtagtap_tms_seq swd_delay_cnt 0xE73C 16 g
  jtagtap_soft_reset g

/-! ## Vocabulary of the specification -/

/-- Bit `i` of a packed bit sequence: bit position `i mod 8`, counted from the
least-significant bit, of byte `⌊i/8⌋`. -/
def bit (buf : Nat → Nat) (i : Nat) : Bool :=
  (buf (i / 8)).testBit (i % 8)

/-- The byte that packs the `m` booleans `r start, ..., r (start + m - 1)`,
least-significant bit first. -/
def pack (r : Nat → Bool) (start : Nat) : Nat → Nat
  | 0 => 0
  | m + 1 => if r (start + m) then pack r start m ||| 2 ^ m else pack r start m

/-- The TMS level of bit `i` of a data shift of `N` bits: `final_tms` on the last bit,
0 before. -/
def tmsAt (N : Nat) (final_tms : Bool) (i : Nat) : Bool :=
  decide (i + 1 = N) && final_tms

/-- The rising-edge history after `k` clock pulses issued from the state `g0`, pulse `i`
being issued with the levels `f i` on (TMS, TDI). When TCK is already high on entry, raising
it for the first pulse is not an edge. -/
def history (g0 : Probe) (f : Nat → Bool × Bool) (k : Nat) : List (Bool × Bool) :=
  g0.edges ++ ((List.range k).map f).drop g0.tck.toNat

/-- The actions of `k` consecutive bits, bit `i` performing the actions `f i`. -/
def trace (f : Nat → List Action) (k : Nat) : List Action :=
  ((List.range k).map f).flatten

/-- Which branch of an operation runs: `some c` is the branch with the delay loops, taken
when `swd_delay_cnt = c` is non-zero, `none` the branch without. -/
def branch (swd_delay_cnt : Nat) : Option Nat :=
  if swd_delay_cnt != 0 then some swd_delay_cnt else none

/-- The delay between two clock edges inside the loops: a delay loop in the branch with
delays, nothing in the other. -/
def pause (d : Option Nat) (g : Probe) : Probe :=
  match d with
  | some c => delay_loop c g
  | none => g

/-- The log entries of `pause`. -/
def waits (d : Option Nat) : List Action :=
  match d with
  | some c => [Action.wait (iterations c)]
  | none => []

/-- The log without the entries of the delay loops. -/
def withoutWaits (log : List Action) : List Action :=
  log.filter fun a =>
    match a with
    | Action.wait _ => false
    | _ => true

/-- The loopback fixture: TDO carries the level most recently written to TDI. -/
def loopback : Target :=
  fun _ tdi _ _ => tdi

/-- An idle line driver: all lines low, nothing recorded, `jtag_proc` unset. -/
def idle : Probe :=
  { tms := false
    tdi := false
    tck := false
    edges := []
    log := []
    jtag_proc :=
      { jtagtap_reset := none
        jtagtap_next := none
        jtagtap_tms_seq := none
        jtagtap_tdi_tdo_seq := none
        jtagtap_tdi_seq := none } }

/-- `n` successive calls `jtagtap_next(tms i, tdi i)` for `i = 0, ..., n - 1`: the returned
values in call order and the line driver after the last call. -/
def next_calls (swd_delay_cnt : Nat) (t : Target) (tms tdi : Nat → Bool) :
    Nat → Probe → List Bool × Probe
  | 0, g => ([], g)
  | n + 1, g =>
    let r := next_calls swd_delay_cnt t tms tdi n g
    let q := jtagtap_next swd_delay_cnt t (tms n) (tdi n) r.2
    (r.1 ++ [q.1], q.2)

/-! ## The loops, with the delay branch as a parameter -/

/-- One iteration of either loop of `jtagtap_tms_seq`, without the update of `MS` and
`data`. -/
def tms_body (d : Option Nat) (data : Nat) (g : Probe) : Probe :=
  pause d (gpio_clear Line.TCK (pause d (gpio_set Line.TCK (gpio_set_val Line.TMS data g))))

/-- Either loop of `jtagtap_tms_seq`. -/
def tms_loop (d : Option Nat) : Nat → Nat → Nat → Probe → Probe
  | 0, _, _, g => g
  | ticks + 1, MS, data, g =>
    tms_loop d ticks (MS >>> 1) ((MS >>> 1) &&& 1) (tms_body d data g)

/-- One iteration of either loop of `jtagtap_tdi_seq`; `ticks` is the value after the
decrement of the loop condition. -/
def tdi_body (d : Option Nat) (final_tms : Bool) (buf : Nat → Nat) (ticks : Nat) (s : Shift) :
    Shift :=
  let g := gpio_set_val Line.TMS (if ticks != 0 then 0 else final_tms.toNat) s.g
  let v := load_and buf { s with g := g }
  let g := gpio_set_val Line.TDI v.1 v.2
  let g := gpio_set Line.TCK g
  let g := pause d g
  let s := advance_tdi { s with g := g }
  let g := gpio_clear Line.TCK s.g
  let g := pause d g
  { s with g := g }

/-- Either loop of `jtagtap_tdi_seq`. -/
def tdi_loop (d : Option Nat) (final_tms : Bool) (buf : Nat → Nat) : Nat → Shift → Shift
  | 0, s => s
  | ticks + 1, s => tdi_loop d final_tms buf ticks (tdi_body d final_tms buf ticks s)

/-- One iteration of either loop of `jtagtap_tdi_tdo_seq`. -/
def tdo_body (d : Option Nat) (t : Target) (buf : Nat → Nat) (s : Shift) : Shift :=
  let v := load_and buf s
  let g := gpio_set_val Line.TDI v.1 v.2
  let g := gpio_set Line.TCK g
  let g := pause d g
  let s := sample_bit t { s with g := g }
  let s := advance_tdo s
  let g := gpio_clear Line.TCK s.g
  let g := pause d g
  { s with g := g }

/-- Either loop of `jtagtap_tdi_tdo_seq`. -/
def tdo_loop (d : Option Nat) (t : Target) (buf : Nat → Nat) : Nat → Shift → Shift
  | 0, s => s
  | 1, s => s
  | ticks + 2, s => tdo_loop d t buf (ticks + 1) (tdo_body d t buf s)

/-- The last bit of `jtagtap_tdi_tdo_seq`, after the loop. -/
def tdo_last (swd_delay_cnt : Nat) (t : Target) (final_tms : Bool) (buf : Nat → Nat)
    (s : Shift) : (Nat → Nat) × Probe :=
  let g := gpio_set_val Line.TMS final_tms.toNat s.g
  let v := load_and buf { s with g := g }
  let g := gpio_set_val Line.TDI v.1 v.2
  let g := gpio_set Line.TCK g
  let g := delay_loop swd_delay_cnt g
  let s := sample_bit t { s with g := g }
  let s := store_res s
  let g := gpio_clear Line.TCK s.g
  let g := delay_loop swd_delay_cnt g
  (s.out, g)

/-- The part of `jtagtap_init` that precedes the first transfer: the lines are claimed and
configured and the five entries of `jtag_proc` are installed. -/
def init_setup ( CONFIG_TMS_SWDIO_DIR_GPIO : Int) (g : Probe) : Probe :=
  let g := gpio_reset_pin Gpio.TDI g
  let g := gpio_reset_pin Gpio.TDO g
  let g := gpio_reset_pin Gpio.TMS_SWDIO g
  let g := gpio_reset_pin Gpio.TCK_SWCLK g
  let g := if CONFIG_TMS_SWDIO_DIR_GPIO ≥ 0 then gpio_reset_pin Gpio.TMS_SWDIO_DIR g else g
  let g := gpio_set_direction Gpio.TDI true g
  let g := gpio_set_direction Gpio.TDO false g
  let g := gpio_set_direction Gpio.TMS_SWDIO true g
  let g := gpio_set_direction Gpio.TCK_SWCLK true g
  let g :=
    if CONFIG_TMS_SWDIO_DIR_GPIO ≥ 0 then gpio_set_direction Gpio.TMS_SWDIO_DIR true g else g
  let g := TMS_SET_MODE g
  install_jtag_proc g

/-! ## The actions of one bit of each operation -/

/-- The actions of `jtagtap_next(tms, tdi)` when TDO is sampled at `level`. -/
def next_actions (swd_delay_cnt : Nat) (tms tdi level : Bool) : List Action :=
  [Action.drive Line.TMS tms, Action.drive Line.TDI tdi, Action.drive Line.TCK true,
    Action.wait (iterations swd_delay_cnt), Action.sample level,
    Action.drive Line.TCK false, Action.wait (iterations swd_delay_cnt)]

/-- The actions of bit `i` of `jtagtap_tms_seq` shifting `M`. -/
def tms_pulse (d : Option Nat) (M : Nat) (i : Nat) : List Action :=
  [Action.drive Line.TMS (M.testBit i), Action.drive Line.TCK true] ++ waits d ++
    [Action.drive Line.TCK false] ++ waits d

/-- The actions of bit `i` of `jtagtap_tdi_seq` shifting `N` bits of `buf`. -/
def tdi_pulse (d : Option Nat) (N : Nat) (final_tms : Bool) (buf : Nat → Nat) (i : Nat) :
    List Action :=
  [Action.drive Line.TMS (tmsAt N final_tms i), Action.load (i / 8),
    Action.drive Line.TDI (bit buf i), Action.drive Line.TCK true] ++ waits d ++
    [Action.drive Line.TCK false] ++ waits d

/-- The (TMS, TDI) levels of bit `i` of a data shift of `N` bits of `buf`. -/
def shiftLevels (N : Nat) (final_tms : Bool) (buf : Nat → Nat) (i : Nat) : Bool × Bool :=
  (tmsAt N final_tms i, bit buf i)

/-- The level the target puts on TDO when `jtagtap_tdi_tdo_seq`, shifting `N` bits of `buf`
from the state `g0`, samples bit `i`: TCK is high and the edge of bit `i` has happened. -/
def tdoAt (t : Target) (N : Nat) (final_tms : Bool) (buf : Nat → Nat) (g0 : Probe) (i : Nat) :
    Bool :=
  t (tmsAt N final_tms i) (bit buf i) true (history g0 (shiftLevels N final_tms buf) (i + 1))

/-- The actions of bit `i`, not the last, of `jtagtap_tdi_tdo_seq`. -/
def tdo_pulse (d : Option Nat) (t : Target) (N : Nat) (final_tms : Bool) (buf : Nat → Nat)
    (g0 : Probe) (i : Nat) : List Action :=
  [Action.load (i / 8), Action.drive Line.TDI (bit buf i), Action.drive Line.TCK true] ++
    waits d ++ [Action.sample (tdoAt t N final_tms buf g0 i)] ++
    (if i % 8 = 7 then
      [Action.store (i / 8) (pack (tdoAt t N final_tms buf g0) (8 * (i / 8)) 8)] else []) ++
    [Action.drive Line.TCK false] ++ waits d

/-- The actions of the last bit `i` of `jtagtap_tdi_tdo_seq`. -/
def tdo_last_pulse (swd_delay_cnt : Nat) (t : Target) (N : Nat) (final_tms : Bool)
    (buf : Nat → Nat) (g0 : Probe) (i : Nat) : List Action :=
  [Action.drive Line.TMS final_tms, Action.load (i / 8), Action.drive Line.TDI (bit buf i),
    Action.drive Line.TCK true, Action.wait (iterations swd_delay_cnt),
    Action.sample (tdoAt t N final_tms buf g0 i),
    Action.store (i / 8) (pack (tdoAt t N final_tms buf g0) (8 * (i / 8)) (i % 8 + 1)),
    Action.drive Line.TCK false, Action.wait (iterations swd_delay_cnt)]

/-- The output buffer after `N` bits sampled at the levels `r` have been packed into
`out0`: byte `b` holds the bits `8 * b, ...` that exist, least-significant bit first, and
bytes past the last bit are untouched. -/
def packed (r : Nat → Bool) (N : Nat) (out0 : Nat → Nat) (b : Nat) : Nat :=
  if 8 * b < N then pack r (8 * b) (min 8 (N - 8 * b)) else out0 b

/-- The level returned by call `i` of `next_calls` issued from the state `g0`. -/
def nextAt (t : Target) (tms tdi : Nat → Bool) (g0 : Probe) (i : Nat) : Bool :=
  t (tms i) (tdi i) true (history g0 (fun j => (tms j, tdi j)) (i + 1))

/-- The levels written to TMS, in the order of the log. -/
def tmsWrites (log : List Action) : List Bool :=
  log.filterMap fun a =>
    match a with
    | Action.drive Line.TMS level => some level
    | _ => none

/-- The indices of the output bytes written, in the order of the log. -/
def storesOf (log : List Action) : List Nat :=
  log.filterMap fun a =>
    match a with
    | Action.store k _ => some k
    | _ => none

/-! ## The target of the mode-entry sequence -/

/-- The sixteen states of the IEEE 1149.1 TAP controller. -/
inductive TapState where
  | TestLogicReset
  | RunTestIdle
  | SelectDR
  | CaptureDR
  | ShiftDR
  | Exit1DR
  | PauseDR
  | Exit2DR
  | UpdateDR
  | SelectIR
  | CaptureIR
  | ShiftIR
  | Exit1IR
  | PauseIR
  | Exit2IR
  | UpdateIR
  deriving DecidableEq, Repr

/-- The state diagram of IEEE 1149.1: the next state of the TAP controller for the TMS
level present at a rising edge of TCK. -/
def tapStep (s : TapState) (tms : Bool) : TapState :=
  match s, tms with
  | TapState.TestLogicReset, true => TapState.TestLogicReset
  | TapState.TestLogicReset, false => TapState.RunTestIdle
  | TapState.RunTestIdle, true => TapState.SelectDR
  | TapState.RunTestIdle, false => TapState.RunTestIdle
  | TapState.SelectDR, true => TapState.SelectIR
  | TapState.SelectDR, false => TapState.CaptureDR
  | TapState.CaptureDR, true => TapState.Exit1DR
  | TapState.CaptureDR, false => TapState.ShiftDR
  | TapState.ShiftDR, true => TapState.Exit1DR
  | TapState.ShiftDR, false => TapState.ShiftDR
  | TapState.Exit1DR, true => TapState.UpdateDR
  | TapState.Exit1DR, false => TapState.PauseDR
  | TapState.PauseDR, true => TapState.Exit2DR
  | TapState.PauseDR, false => TapState.PauseDR
  | TapState.Exit2DR, true => TapState.UpdateDR
  | TapState.Exit2DR, false => TapState.ShiftDR
  | TapState.UpdateDR, true => TapState.SelectDR
  | TapState.UpdateDR, false => TapState.RunTestIdle
  | TapState.SelectIR, true => TapState.TestLogicReset
  | TapState.SelectIR, false => TapState.CaptureIR
  | TapState.CaptureIR, true => TapState.Exit1IR
  | TapState.CaptureIR, false => TapState.ShiftIR
  | TapState.ShiftIR, true => TapState.Exit1IR
  | TapState.ShiftIR, false => TapState.ShiftIR
  | TapState.Exit1IR, true => TapState.UpdateIR
  | TapState.Exit1IR, false => TapState.PauseIR
  | TapState.PauseIR, true => TapState.Exit2IR
  | TapState.PauseIR, false => TapState.PauseIR
  | TapState.Exit2IR, true => TapState.UpdateIR
  | TapState.Exit2IR, false => TapState.ShiftIR
  | TapState.UpdateIR, true => TapState.SelectDR
  | TapState.UpdateIR, false => TapState.RunTestIdle

/-- The state the TAP controller reaches from `s` over rising edges with the TMS levels
`l`. -/
def tapRun (s : TapState) (l : List Bool) : TapState :=
  l.foldl tapStep s

/-- The state of a TAP controller that was in the state `s0` when the recorded history of
rising edges began. -/
def tapState (s0 : TapState) (g : Probe) : TapState :=
  tapRun s0 (g.edges.map Prod.fst)

/-- The sixteen bits of `0xE73C`, least-significant bit first. -/
def swdToJtag : List Bool :=
  (List.range 16).map fun i => Nat.testBit 0xE73C i

/-! ## Frequency configuration (`src/main/platform.c`) -/

/-- The file-scope state of `platform.c` that the frequency functions touch: the variable
`static uint32_t frequency` and the values printed by `ESP_LOGI`. -/
structure Platform where
  /-- `static uint32_t frequency` -/
  frequency : Nat
  /-- the values of `actual_frequency` that were logged, oldest first -/
  logged : List Int
  deriving DecidableEq, Repr

/-- The state at start-up: a static variable without initialiser is zero. -/
def boot : Platform :=
  { frequency := 0, logged := [] }

/-- The function `swdptap_set_frequency`. Its parameter is named `frequency` and hides the
file-scope variable; the function returns the parameter, converted to `int`. -/
def swdptap_set_frequency (frequency : Nat) (p : Platform) : Int × Platform :=
  (int32 (frequency % 4294967296), p)

/-- The function `swdptap_get_frequency`: the file-scope variable, converted to `int`. -/
def swdptap_get_frequency (p : Platform) : Int :=
  int32 (p.frequency % 4294967296)

/-- The function `platform_max_frequency_set`. -/
def platform_max_frequency_set (freq : Nat) (p : Platform) : Platform :=
  if freq < 100 then p
  else if freq > 48 * 1000 * 1000 then p
  else
    let r := swdptap_set_frequency freq p
    let actual_frequency := r.1
    { r.2 with logged := r.2.logged ++ [actual_frequency] }

/-- The function `platform_max_frequency_get`; the result is converted to `uint32_t`. -/
def platform_max_frequency_get (p : Platform) : Nat :=
  (swdptap_get_frequency p % 4294967296).toNat

/-! ## Loop invariants -/

/-- What holds at the head of the loop of `jtagtap_tms_seq` after `k` bits of `M`, the loop
having been entered in the state `g0`. -/
structure TmsInv (d : Option Nat) (M : Nat) (g0 : Probe) (k : Nat) (MS data : Nat)
    (g : Probe) : Prop where
  ms : MS = M >>> k
  data : data = MS &&& 1
  tdi : g.tdi = g0.tdi
  tck : g.tck = (decide (k = 0) && g0.tck)
  edges : g.edges = history g0 (fun i => (M.testBit i, g0.tdi)) k
  log : g.log = g0.log ++ trace (tms_pulse d M) k
  jtag_proc : g.jtag_proc = g0.jtag_proc

/-- What holds at the head of the loop of `jtagtap_tdi_seq` after `k` of the `N` bits, the
loop having been entered in the state `g0`. -/
structure TdiInv (d : Option Nat) (N : Nat) (final_tms : Bool) (buf : Nat → Nat) (g0 : Probe)
    (k : Nat) (s : Shift) : Prop where
  index : s.index = 2 ^ (k % 8)
  DI : s.DI = k / 8
  tck : s.g.tck = (decide (k = 0) && g0.tck)
  edges : s.g.edges = history g0 (shiftLevels N final_tms buf) k
  log : s.g.log = g0.log ++ trace (tdi_pulse d N final_tms buf) k
  jtag_proc : s.g.jtag_proc = g0.jtag_proc

/-- What holds at the head of the loop of `jtagtap_tdi_tdo_seq` after `k` of the `N` bits,
the function having been entered in the state `g0` with the output buffer `out0`. -/
structure TdoInv (d : Option Nat) (t : Target) (N : Nat) (final_tms : Bool) (buf : Nat → Nat)
    (out0 : Nat → Nat) (g0 : Probe) (k : Nat) (s : Shift) : Prop where
  index : s.index = 2 ^ (k % 8)
  res : s.res = pack (tdoAt t N final_tms buf g0) (8 * (k / 8)) (k % 8)
  DI : s.DI = k / 8
  DO : s.DO = k / 8
  out : s.out = fun b => if b < k / 8 then pack (tdoAt t N final_tms buf g0) (8 * b) 8 else out0 b
  tms : s.g.tms = false
  tck : s.g.tck = (decide (k = 0) && g0.tck)
  edges : s.g.edges = history g0 (shiftLevels N final_tms buf) k
  log : s.g.log =
    g0.log ++ Action.drive Line.TMS false :: trace (tdo_pulse d t N final_tms buf g0) k
  jtag_proc : s.g.jtag_proc = g0.jtag_proc

/-! # Lemmas -/

/-! ## Arithmetic of the bit masks -/

theorem toNat_ne_zero (b : Bool) : (b.toNat != 0) = b := by
  cases b <;> rfl

theorem toNat_mod_ne_zero (b : Bool) : (b.toNat % 65536 != 0) = b := by
  cases b <;> rfl

theorem and_one_ne_zero (x : Nat) : (x &&& 1 != 0) = x.testBit 0 := by
  rw [Nat.and_one_is_mod, Nat.testBit_zero]
  rcases Nat.mod_two_eq_zero_or_one x with h | h <;> simp [h]

theorem land_two_pow_ne_zero (x m : Nat) (hm : m < 8) :
    (x % 256 &&& 2 ^ m != 0) = x.testBit m := by
  have h : x % 256 &&& 2 ^ m = if x.testBit m then 2 ^ m else 0 := by
    apply Nat.eq_of_testBit_eq
    intro j
    rw [Nat.testBit_and, Nat.testBit_two_pow, show (256 : Nat) = 2 ^ 8 by norm_num,
      Nat.testBit_mod_two_pow]
    by_cases hj : m = j
    · subst hj
      cases hx : x.testBit m <;> simp [hm, Nat.testBit_two_pow_self]
    · cases hx : x.testBit m <;> simp [hj, Nat.testBit_two_pow_of_ne hj]
  rw [h]
  cases hx : x.testBit m <;> simp

theorem index_shift (m : Nat) (hm : m < 8) :
    (2 ^ m <<< 1) % 256 = if m = 7 then 0 else 2 ^ (m + 1) := by
  interval_cases m <;> decide

theorem pack_zero (r : Nat → Bool) (start : Nat) : pack r start 0 = 0 := rfl

theorem pack_lt (r : Nat → Bool) (start m : Nat) : pack r start m < 2 ^ m := by
  induction m with
  | zero => simp [pack]
  | succ m ih =>
    rw [pack]
    split
    · exact Nat.or_lt_two_pow (Nat.lt_trans ih (Nat.pow_lt_pow_right (by norm_num) (by omega)))
        (Nat.pow_lt_pow_right (by norm_num) (by omega))
    · exact Nat.lt_trans ih (Nat.pow_lt_pow_right (by norm_num) (by omega))

theorem testBit_pack (r : Nat → Bool) (start m j : Nat) :
    (pack r start m).testBit j = (decide (j < m) && r (start + j)) := by
  induction m with
  | zero => simp [pack]
  | succ m ih =>
    rw [pack]
    by_cases hj : j = m
    · subst hj
      cases hr : r (start + j) <;> simp [ih, Nat.testBit_two_pow_self, hr]
    · have hne : m ≠ j := fun h => hj h.symm
      have hlt : j < m + 1 ↔ j < m := by omega
      cases hr : r (start + m) <;>
        simp [ih, Nat.testBit_two_pow_of_ne hne, hlt]

theorem pack_congr (r r' : Nat → Bool) (start m : Nat)
    (h : ∀ j, j < m → r (start + j) = r' (start + j)) : pack r start m = pack r' start m := by
  induction m with
  | zero => rfl
  | succ m ih =>
    rw [pack, pack, ih (fun j hj => h j (by omega)), h m (by omega)]

theorem pack_bit (buf : Nat → Nat) (b : Nat) : pack (bit buf) (8 * b) 8 = buf b % 256 := by
  apply Nat.eq_of_testBit_eq
  intro j
  rw [testBit_pack, show (256 : Nat) = 2 ^ 8 by norm_num, Nat.testBit_mod_two_pow]
  by_cases hj : j < 8
  · have e1 : (8 * b + j) / 8 = b := by omega
    have e2 : (8 * b + j) % 8 = j := by omega
    simp [hj, bit, e1, e2]
  · simp [hj]

/-! ## Histories and traces -/

theorem trace_zero (f : Nat → List Action) : trace f 0 = [] := rfl

theorem trace_succ (f : Nat → List Action) (k : Nat) : trace f (k + 1) = trace f k ++ f k := by
  simp [trace, List.range_succ]

theorem trace_congr (f f' : Nat → List Action) (k : Nat) (h : ∀ i, i < k → f i = f' i) :
    trace f k = trace f' k := by
  unfold trace
  congr 1
  apply List.map_congr_left
  intro i hi
  exact h i (List.mem_range.mp hi)

theorem history_zero (g0 : Probe) (f : Nat → Bool × Bool) : history g0 f 0 = g0.edges := by
  simp [history]

theorem history_succ (g0 : Probe) (f : Nat → Bool × Bool) (k : Nat) :
    history g0 f (k + 1) =
      if (decide (k = 0) && g0.tck) then history g0 f k else history g0 f k ++ [f k] := by
  unfold history
  cases h : g0.tck
  · simp [List.range_succ]
  · rcases Nat.eq_zero_or_pos k with hk | hk
    · subst hk; simp [List.range_succ]
    · have hk' : ¬ (k = 0) := by omega
      have hlen : Bool.toNat true ≤ ((List.range k).map f).length := by simpa using hk
      simp only [List.range_succ, List.map_append, List.drop_append_of_le_length hlen]
      simp [hk']

theorem history_congr (g0 : Probe) (f f' : Nat → Bool × Bool) (k : Nat)
    (h : ∀ i, i < k → f i = f' i) : history g0 f k = history g0 f' k := by
  unfold history
  congr 2
  apply List.map_congr_left
  intro i hi
  exact h i (List.mem_range.mp hi)

theorem history_low (g0 : Probe) (f : Nat → Bool × Bool) (k : Nat) (h : g0.tck = false) :
    history g0 f k = g0.edges ++ (List.range k).map f := by
  simp [history, h]

theorem withoutWaits_append (a b : List Action) :
    withoutWaits (a ++ b) = withoutWaits a ++ withoutWaits b := by
  simp [withoutWaits]

theorem withoutWaits_waits (d : Option Nat) : withoutWaits (waits d) = [] := by
  cases d <;> rfl

theorem withoutWaits_trace (f f' : Nat → List Action) (k : Nat)
    (h : ∀ i, i < k → withoutWaits (f i) = f' i) : withoutWaits (trace f k) = trace f' k := by
  induction k with
  | zero => rfl
  | succ k ih =>
    rw [trace_succ, trace_succ, withoutWaits_append, ih (fun i hi => h i (by omega)),
      h k (by omega)]

/-! ## The source loops are the parametrised loops -/

theorem tms_seq_delay_eq (c : Nat) : ∀ (n MS data : Nat) (g : Probe),
    tms_seq_delay c n MS data g = tms_loop (some c) n MS data g := by
  intro n
  induction n with
  | zero => intros; rfl
  | succ n ih => intro MS data g; exact ih _ _ _

theorem tms_seq_no_delay_eq : ∀ (n MS data : Nat) (g : Probe),
    tms_seq_no_delay n MS data g = tms_loop none n MS data g := by
  intro n
  induction n with
  | zero => intros; rfl
  | succ n ih => intro MS data g; exact ih _ _ _

theorem tdi_seq_delay_eq (c : Nat) (f : Bool) (buf : Nat → Nat) : ∀ (n : Nat) (s : Shift),
    tdi_seq_delay c f buf n s = tdi_loop (some c) f buf n s := by
  intro n
  induction n with
  | zero => intros; rfl
  | succ n ih => intro s; exact ih _

theorem tdi_seq_no_delay_eq (f : Bool) (buf : Nat → Nat) : ∀ (n : Nat) (s : Shift),
    tdi_seq_no_delay f buf n s = tdi_loop none f buf n s := by
  intro n
  induction n with
  | zero => intros; rfl
  | succ n ih => intro s; exact ih _

theorem tdi_tdo_seq_delay_eq (c : Nat) (t : Target) (buf : Nat → Nat) :
    ∀ (n : Nat) (s : Shift), tdi_tdo_seq_delay c t buf n s = tdo_loop (some c) t buf n s := by
  intro n
  induction n using Nat.strongRecOn with
  | _ n ih =>
    intro s
    match n with
    | 0 => rfl
    | 1 => rfl
    | m + 2 => exact ih (m + 1) (by omega) _

theorem tdi_tdo_seq_no_delay_eq (t : Target) (buf : Nat → Nat) :
    ∀ (n : Nat) (s : Shift), tdi_tdo_seq_no_delay t buf n s = tdo_loop none t buf n s := by
  intro n
  induction n using Nat.strongRecOn with
  | _ n ih =>
    intro s
    match n with
    | 0 => rfl
    | 1 => rfl
    | m + 2 => exact ih (m + 1) (by omega) _

theorem jtagtap_tms_seq_eq (c MS n : Nat) (g : Probe) :
    jtagtap_tms_seq c MS n g =
      tms_loop (branch c) n (MS % 4294967296) (MS % 4294967296 &&& 1)
        (gpio_set_val Line.TDI 1 g) := by
  unfold jtagtap_tms_seq branch
  by_cases h : (c != 0) = true
  · simp only [if_pos h, tms_seq_delay_eq]
  · simp only [if_neg h, tms_seq_no_delay_eq]

theorem jtagtap_tdi_seq_eq (c : Nat) (f : Bool) (buf : Nat → Nat) (n : Nat) (g : Probe) :
    jtagtap_tdi_seq c f buf n g =
      (tdi_loop (branch c) f buf n
        { index := 1, res := 0, DI := 0, DO := 0, out := fun _ => 0, g := g }).g := by
  unfold jtagtap_tdi_seq branch
  by_cases h : (c != 0) = true
  · simp only [if_pos h, tdi_seq_delay_eq]
  · simp only [if_neg h, tdi_seq_no_delay_eq]

theorem jtagtap_tdi_tdo_seq_eq (c : Nat) (t : Target) (out : Nat → Nat) (f : Bool)
    (buf : Nat → Nat) (n : Nat) (g : Probe) :
    jtagtap_tdi_tdo_seq c t out f buf n g =
      tdo_last c t f buf (tdo_loop (branch c) t buf n
        { index := 1, res := 0, DI := 0, DO := 0, out := out,
          g := gpio_set_val Line.TMS 0 g }) := by
  unfold jtagtap_tdi_tdo_seq branch tdo_last
  by_cases h : (c != 0) = true
  · simp only [if_pos h, tdi_tdo_seq_delay_eq]
  · simp only [if_neg h, tdi_tdo_seq_no_delay_eq]

/-! ## Loop invariant of `jtagtap_tms_seq` -/

theorem tms_body_inv (d : Option Nat) (M : Nat) (g0 : Probe) (k MS data : Nat) (g : Probe)
    (h : TmsInv d M g0 k MS data g) :
    TmsInv d M g0 (k + 1) (MS >>> 1) ((MS >>> 1) &&& 1) (tms_body d data g) := by
  obtain ⟨h1, h2, h3, h4, h5, h6, h7⟩ := h
  have hb : (data != 0) = M.testBit k := by
    rw [h2, and_one_ne_zero, h1]; simp
  have hp := history_succ g0 (fun i => (M.testBit i, g0.tdi)) k
  cases hc : (decide (k = 0) && g0.tck) <;> rw [hc] at h4 hp <;>
  · constructor
    · rw [h1, Nat.shiftRight_add]
    · rfl
    all_goals
      cases d <;>
      simp [tms_body, pause, delay_loop, Probe.record, gpio_clear, gpio_set, gpio_set_val,
        setLine, h3, h4, h5, h6, h7, hp, hb, trace_succ, tms_pulse, waits]

theorem tms_loop_inv (d : Option Nat) (M : Nat) (g0 : Probe) :
    ∀ (n k MS data : Nat) (g : Probe), TmsInv d M g0 k MS data g →
      ∃ MS1 data1, TmsInv d M g0 (k + n) MS1 data1 (tms_loop d n MS data g) := by
  intro n
  induction n with
  | zero => intro k MS data g h; exact ⟨MS, data, h⟩
  | succ n ih =>
    intro k MS data g h
    have h1 := ih (k + 1) _ _ _ (tms_body_inv d M g0 k MS data g h)
    rw [show k + (n + 1) = k + 1 + n by omega]
    exact h1

/-- The edges and the log of `jtagtap_tms_seq`. -/
theorem jtagtap_tms_seq_spec (c MS n : Nat) (g : Probe) :
    (jtagtap_tms_seq c MS n g).edges =
        history g (fun i => ((MS % 4294967296).testBit i, true)) n ∧
      (jtagtap_tms_seq c MS n g).log =
        g.log ++ Action.drive Line.TDI true ::
          trace (tms_pulse (branch c) (MS % 4294967296)) n ∧
      (jtagtap_tms_seq c MS n g).tck = (decide (n = 0) && g.tck) ∧
      (jtagtap_tms_seq c MS n g).tdi = true ∧
      (jtagtap_tms_seq c MS n g).jtag_proc = g.jtag_proc := by
  rw [jtagtap_tms_seq_eq]
  have h0 : TmsInv (branch c) (MS % 4294967296) (gpio_set_val Line.TDI 1 g) 0
      (MS % 4294967296) (MS % 4294967296 &&& 1) (gpio_set_val Line.TDI 1 g) := by
    constructor <;> simp [history_zero, trace_zero]
  obtain ⟨MS1, data1, h⟩ := tms_loop_inv (branch c) (MS % 4294967296) _ n 0 _ _ _ h0
  obtain ⟨-, -, h3, h4, h5, h6, h7⟩ := h
  rw [Nat.zero_add] at h4 h5 h6
  refine ⟨?_, ?_, ?_, ?_, ?_⟩
  · rw [h5]; simp [history, gpio_set_val, setLine]
  · rw [h6]; simp [gpio_set_val, setLine]
  · rw [h4]; simp [gpio_set_val, setLine]
  · rw [h3]; simp [gpio_set_val, setLine]
  · rw [h7]; simp [gpio_set_val, setLine]

/-! ## Loop invariant of `jtagtap_tdi_seq` -/

theorem tdi_body_inv (d : Option Nat) (N : Nat) (f : Bool) (buf : Nat → Nat) (g0 : Probe)
    (k n : Nat) (s : Shift) (hN : k + n + 1 = N) (h : TdiInv d N f buf g0 k s) :
    TdiInv d N f buf g0 (k + 1) (tdi_body d f buf n s) := by
  obtain ⟨h1, h2, h3, h4, h5, h6⟩ := h
  have hm : k % 8 < 8 := Nat.mod_lt _ (by norm_num)
  have htms : ((if (n != 0) = true then 0 else f.toNat) != 0) = tmsAt N f k := by
    unfold tmsAt
    by_cases hn : n = 0
    · subst hn; simp [hN, toNat_ne_zero]
    · have : ¬ (k + 1 = N) := by omega
      simp [hn, this]
  have hbit : (buf s.DI % 256 &&& s.index != 0) = bit buf k := by
    rw [h1, h2, land_two_pow_ne_zero _ _ hm]; rfl
  have hidx := index_shift (k % 8) hm
  have hne : ¬ (2 ^ (k % 8 + 1) = 0) := by positivity
  have hp := history_succ g0 (shiftLevels N f buf) k
  have hl : shiftLevels N f buf k = (tmsAt N f k, bit buf k) := rfl
  cases hc : (decide (k = 0) && g0.tck) <;> rw [hc] at h3 hp <;> rw [hl] at hp <;>
  · by_cases h7 : k % 8 = 7
    · have e1 : (k + 1) % 8 = 0 := by omega
      have e2 : (k + 1) / 8 = k / 8 + 1 := by omega
      rw [if_pos h7] at hidx
      constructor <;> simp only [tdi_body, load_and, gpio_set_val, htms, hbit] <;> cases d <;>
        simp [advance_tdi, pause, delay_loop, Probe.record, gpio_clear, gpio_set, setLine,
          h1, h2, h3, h4, h5, h6, hidx, e1, e2, hp, trace_succ, tdi_pulse, waits]
    · have e1 : (k + 1) % 8 = k % 8 + 1 := by omega
      have e2 : (k + 1) / 8 = k / 8 := by omega
      rw [if_neg h7] at hidx
      constructor <;> simp only [tdi_body, load_and, gpio_set_val, htms, hbit] <;> cases d <;>
        simp [advance_tdi, pause, delay_loop, Probe.record, gpio_clear, gpio_set, setLine,
          h1, h2, h3, h4, h5, h6, hidx, hne, e1, e2, hp, trace_succ, tdi_pulse, waits]

theorem tdi_loop_inv (d : Option Nat) (N : Nat) (f : Bool) (buf : Nat → Nat) (g0 : Probe) :
    ∀ (n k : Nat) (s : Shift), k + n = N → TdiInv d N f buf g0 k s →
      TdiInv d N f buf g0 N (tdi_loop d f buf n s) := by
  intro n
  induction n with
  | zero =>
    intro k s hk h
    have hkN : k = N := by omega
    subst hkN
    exact h
  | succ n ih =>
    intro k s hk h
    exact ih (k + 1) _ (by omega) (tdi_body_inv d N f buf g0 k n s (by omega) h)

/-- The edges and the log of `jtagtap_tdi_seq`. -/
theorem jtagtap_tdi_seq_spec (c : Nat) (f : Bool) (buf : Nat → Nat) (N : Nat) (g : Probe) :
    (jtagtap_tdi_seq c f buf N g).edges = history g (shiftLevels N f buf) N ∧
      (jtagtap_tdi_seq c f buf N g).log = g.log ++ trace (tdi_pulse (branch c) N f buf) N ∧
      (jtagtap_tdi_seq c f buf N g).tck = (decide (N = 0) && g.tck) ∧
      (jtagtap_tdi_seq c f buf N g).jtag_proc = g.jtag_proc := by
  rw [jtagtap_tdi_seq_eq]
  have h0 : TdiInv (branch c) N f buf g 0
      { index := 1, res := 0, DI := 0, DO := 0, out := fun _ => 0, g := g } := by
    constructor <;> simp [history_zero, trace_zero]
  obtain ⟨-, -, h3, h4, h5, h6⟩ := tdi_loop_inv (branch c) N f buf g N 0 _ (by omega) h0
  exact ⟨h4, h5, h3, h6⟩

/-! ## Loop invariant of `jtagtap_tdi_tdo_seq` -/

theorem sample_bit_g (t : Target) (s : Shift) : (sample_bit t s).g = (gpio_get t s.g).2 := by
  simp only [sample_bit]; split <;> rfl

theorem sample_bit_res (t : Target) (s : Shift) :
    (sample_bit t s).res =
      if t s.g.tms s.g.tdi s.g.tck s.g.edges then s.res ||| s.index else s.res := by
  unfold sample_bit gpio_get
  cases h : t s.g.tms s.g.tdi s.g.tck s.g.edges <;> simp [h]

theorem sample_bit_index (t : Target) (s : Shift) : (sample_bit t s).index = s.index := by
  simp only [sample_bit]; split <;> rfl

theorem sample_bit_DI (t : Target) (s : Shift) : (sample_bit t s).DI = s.DI := by
  simp only [sample_bit]; split <;> rfl

theorem sample_bit_DO (t : Target) (s : Shift) : (sample_bit t s).DO = s.DO := by
  simp only [sample_bit]; split <;> rfl

theorem sample_bit_out (t : Target) (s : Shift) : (sample_bit t s).out = s.out := by
  simp only [sample_bit]; split <;> rfl

theorem tdo_body_inv (d : Option Nat) (t : Target) (N : Nat) (f : Bool) (buf : Nat → Nat)
    (out0 : Nat → Nat) (g0 : Probe) (k : Nat) (s : Shift) (hN : k + 1 < N)
    (h : TdoInv d t N f buf out0 g0 k s) :
    TdoInv d t N f buf out0 g0 (k + 1) (tdo_body d t buf s) := by
  obtain ⟨h1, hr, h2, h2', ho, ht, h3, h4, h5, h6⟩ := h
  have hm : k % 8 < 8 := Nat.mod_lt _ (by norm_num)
  have htms : tmsAt N f k = false := by
    have : ¬ (k + 1 = N) := by omega
    simp [tmsAt, this]
  have hbit : (buf s.DI % 256 &&& s.index != 0) = bit buf k := by
    rw [h1, h2, land_two_pow_ne_zero _ _ hm]; rfl
  have hidx := index_shift (k % 8) hm
  have hne : ¬ (2 ^ (k % 8 + 1) = 0) := by positivity
  have hsam : t false (bit buf k) true (history g0 (shiftLevels N f buf) (k + 1)) =
      tdoAt t N f buf g0 k := by
    rw [tdoAt, htms]
  have hk : 8 * (k / 8) + k % 8 = k := Nat.div_add_mod k 8
  have hres : (if tdoAt t N f buf g0 k then
        pack (tdoAt t N f buf g0) (8 * (k / 8)) (k % 8) ||| 2 ^ (k % 8)
      else pack (tdoAt t N f buf g0) (8 * (k / 8)) (k % 8)) =
      pack (tdoAt t N f buf g0) (8 * (k / 8)) (k % 8 + 1) := by
    rw [pack, hk]
  have hp := history_succ g0 (shiftLevels N f buf) k
  have hl : shiftLevels N f buf k = (false, bit buf k) := by
    rw [shiftLevels, htms]
  cases hc : (decide (k = 0) && g0.tck) <;> rw [hc] at h3 hp <;> rw [hl] at hp <;>
    simp only [Bool.false_eq_true, if_false, if_true] at hp <;>
    replace hp := hp.symm <;>
  · by_cases h7 : k % 8 = 7
    · have e1 : (k + 1) % 8 = 0 := by omega
      have e2 : (k + 1) / 8 = k / 8 + 1 := by omega
      rw [if_pos h7] at hidx
      have hres7 : (if tdoAt t N f buf g0 k then
            pack (tdoAt t N f buf g0) (8 * (k / 8)) 7 ||| 128
          else pack (tdoAt t N f buf g0) (8 * (k / 8)) 7) =
          pack (tdoAt t N f buf g0) (8 * (k / 8)) 8 := by
        have h8 := hres
        rw [h7] at h8
        exact h8
      have hout : (fun b => if b = k / 8 then pack (tdoAt t N f buf g0) (8 * (k / 8)) 8
            else if b < k / 8 then pack (tdoAt t N f buf g0) (8 * b) 8 else out0 b) =
          fun b => if b < k / 8 + 1 then pack (tdoAt t N f buf g0) (8 * b) 8 else out0 b := by
        funext b
        by_cases hb : b = k / 8
        · subst hb; simp
        · have hlt : b < k / 8 + 1 ↔ b < k / 8 := by omega
          simp [hb, hlt]
      constructor <;> simp only [tdo_body, load_and, gpio_set_val, hbit] <;> cases d <;>
        simp [advance_tdo, store_res, pause, delay_loop, Probe.record, gpio_clear, gpio_set,
          gpio_get, setLine, sample_bit_index, sample_bit_DI, sample_bit_DO, sample_bit_out,
          sample_bit_res, sample_bit_g, h1, hr, h2, h2', ho, ht, h3, h4, h5, h6, hidx, e1, e2,
          hp, hsam, hres7, hout, h7, pack_zero, trace_succ, tdo_pulse, waits]
    · have e1 : (k + 1) % 8 = k % 8 + 1 := by omega
      have e2 : (k + 1) / 8 = k / 8 := by omega
      rw [if_neg h7] at hidx
      constructor <;> simp only [tdo_body, load_and, gpio_set_val, hbit] <;> cases d <;>
        simp [advance_tdo, store_res, pause, delay_loop, Probe.record, gpio_clear, gpio_set,
          gpio_get, setLine, sample_bit_index, sample_bit_DI, sample_bit_DO, sample_bit_out,
          sample_bit_res, sample_bit_g, h1, hr, h2, h2', ho, ht, h3, h4, h5, h6, hidx, hne,
          e1, e2, hp, hsam, hres, h7, trace_succ, tdo_pulse, waits]

theorem tdo_loop_inv (d : Option Nat) (t : Target) (N : Nat) (f : Bool) (buf : Nat → Nat)
    (out0 : Nat → Nat) (g0 : Probe) :
    ∀ (n k : Nat) (s : Shift), k + n + 1 = N → TdoInv d t N f buf out0 g0 k s →
      TdoInv d t N f buf out0 g0 (N - 1) (tdo_loop d t buf (n + 1) s) := by
  intro n
  induction n with
  | zero =>
    intro k s hk h
    have hkN : k = N - 1 := by omega
    subst hkN
    exact h
  | succ n ih =>
    intro k s hk h
    exact ih (k + 1) _ (by omega) (tdo_body_inv d t N f buf out0 g0 k s (by omega) h)

theorem tdo_last_spec (c : Nat) (t : Target) (N : Nat) (f : Bool) (buf : Nat → Nat)
    (out0 : Nat → Nat) (g0 : Probe) (k : Nat) (s : Shift) (hN : k + 1 = N) (d : Option Nat)
    (h : TdoInv d t N f buf out0 g0 k s) :
    (tdo_last c t f buf s).1 = packed (tdoAt t N f buf g0) N out0 ∧
      (tdo_last c t f buf s).2.edges = history g0 (shiftLevels N f buf) N ∧
      (tdo_last c t f buf s).2.log =
        g0.log ++ Action.drive Line.TMS false ::
          (trace (tdo_pulse d t N f buf g0) k ++ tdo_last_pulse c t N f buf g0 k) ∧
      (tdo_last c t f buf s).2.tck = false ∧
      (tdo_last c t f buf s).2.jtag_proc = g0.jtag_proc := by
  obtain ⟨h1, hr, h2, h2', ho, -, h3, h4, h5, h6⟩ := h
  have hm : k % 8 < 8 := Nat.mod_lt _ (by norm_num)
  have htms : tmsAt N f k = f := by
    simp [tmsAt, hN]
  have hbit : (buf s.DI % 256 &&& s.index != 0) = bit buf k := by
    rw [h1, h2, land_two_pow_ne_zero _ _ hm]; rfl
  have hsam : t f (bit buf k) true (history g0 (shiftLevels N f buf) (k + 1)) =
      tdoAt t N f buf g0 k := by
    rw [tdoAt, htms]
  have hk : 8 * (k / 8) + k % 8 = k := Nat.div_add_mod k 8
  have hres : (if tdoAt t N f buf g0 k then
        pack (tdoAt t N f buf g0) (8 * (k / 8)) (k % 8) ||| 2 ^ (k % 8)
      else pack (tdoAt t N f buf g0) (8 * (k / 8)) (k % 8)) =
      pack (tdoAt t N f buf g0) (8 * (k / 8)) (k % 8 + 1) := by
    rw [pack, hk]
  have hout : (fun b => if b = k / 8 then pack (tdoAt t N f buf g0) (8 * (k / 8)) (k % 8 + 1)
        else if b < k / 8 then pack (tdoAt t N f buf g0) (8 * b) 8 else out0 b) =
      packed (tdoAt t N f buf g0) N out0 := by
    funext b
    unfold packed
    by_cases hb : b = k / 8
    · subst hb
      have e1 : 8 * (k / 8) < N := by omega
      have e2 : min 8 (N - 8 * (k / 8)) = k % 8 + 1 := by omega
      simp [e1, e2]
    · by_cases hb2 : b < k / 8
      · have e1 : 8 * b < N := by omega
        have e2 : min 8 (N - 8 * b) = 8 := by omega
        simp [hb, hb2, e1, e2]
      · have e1 : ¬ (8 * b < N) := by omega
        simp [hb, hb2, e1]
  have hp := history_succ g0 (shiftLevels N f buf) k
  have hl : shiftLevels N f buf k = (f, bit buf k) := by
    rw [shiftLevels, htms]
  have hf : (f.toNat != 0) = f := toNat_ne_zero f
  subst hN
  cases hc : (decide (k = 0) && g0.tck) <;> rw [hc] at h3 hp <;> rw [hl] at hp <;>
    simp only [Bool.false_eq_true, if_false, if_true] at hp <;>
    replace hp := hp.symm <;>
  · refine ⟨?_, ?_, ?_, ?_, ?_⟩ <;>
      simp only [tdo_last, load_and, gpio_set_val, hbit, hf] <;>
      simp [store_res, delay_loop, Probe.record, gpio_clear, gpio_set,
        gpio_get, setLine, sample_bit_index, sample_bit_DI, sample_bit_DO, sample_bit_out,
        sample_bit_res, sample_bit_g, h1, hr, h2, h2', ho, h3, h4, h5, h6,
        hp, hsam, hres, hout, tdo_last_pulse]

/-- The output buffer, the edges and the log of `jtagtap_tdi_tdo_seq` for at least one bit. -/
theorem jtagtap_tdi_tdo_seq_spec (c : Nat) (t : Target) (out : Nat → Nat) (f : Bool)
    (buf : Nat → Nat) (N : Nat) (g : Probe) (hN : 1 ≤ N) :
    (jtagtap_tdi_tdo_seq c t out f buf N g).1 = packed (tdoAt t N f buf g) N out ∧
      (jtagtap_tdi_tdo_seq c t out f buf N g).2.edges = history g (shiftLevels N f buf) N ∧
      (jtagtap_tdi_tdo_seq c t out f buf N g).2.log =
        g.log ++ Action.drive Line.TMS false ::
          (trace (tdo_pulse (branch c) t N f buf g) (N - 1) ++
            tdo_last_pulse c t N f buf g (N - 1)) ∧
      (jtagtap_tdi_tdo_seq c t out f buf N g).2.tck = false ∧
      (jtagtap_tdi_tdo_seq c t out f buf N g).2.jtag_proc = g.jtag_proc := by
  rw [jtagtap_tdi_tdo_seq_eq]
  have h0 : TdoInv (branch c) t N f buf out g 0
      { index := 1, res := 0, DI := 0, DO := 0, out := out, g := gpio_set_val Line.TMS 0 g } := by
    constructor <;> simp [history_zero, trace_zero, pack_zero, gpio_set_val, setLine]
  obtain ⟨n, rfl⟩ : ∃ n, N = n + 1 := ⟨N - 1, by omega⟩
  have h := tdo_loop_inv (branch c) t (n + 1) f buf out g n 0 _ (by omega) h0
  exact tdo_last_spec c t (n + 1) f buf out g n _ rfl (branch c) h

/-- With no bit requested `jtagtap_tdi_tdo_seq` does what it does for one bit. -/
theorem jtagtap_tdi_tdo_seq_zero (c : Nat) (t : Target) (out : Nat → Nat) (f : Bool)
    (buf : Nat → Nat) (g : Probe) :
    jtagtap_tdi_tdo_seq c t out f buf 0 g = jtagtap_tdi_tdo_seq c t out f buf 1 g := by
  rw [jtagtap_tdi_tdo_seq_eq, jtagtap_tdi_tdo_seq_eq]
  rfl

/-! ## `jtagtap_next` and successive calls of it -/

theorem jtagtap_next_spec (c : Nat) (t : Target) (tms tdi : Bool) (g : Probe) :
    (jtagtap_next c t tms tdi g).1 =
        t tms tdi true (if g.tck then g.edges else g.edges ++ [(tms, tdi)]) ∧
      (jtagtap_next c t tms tdi g).2.edges =
        (if g.tck then g.edges else g.edges ++ [(tms, tdi)]) ∧
      (jtagtap_next c t tms tdi g).2.log =
        g.log ++ next_actions c tms tdi (jtagtap_next c t tms tdi g).1 ∧
      (jtagtap_next c t tms tdi g).2.tck = false ∧
      (jtagtap_next c t tms tdi g).2.jtag_proc = g.jtag_proc := by
  cases hc : g.tck <;>
    simp [jtagtap_next, gpio_set_val, gpio_set, gpio_clear, gpio_get, delay_loop, Probe.record,
      setLine, toNat_ne_zero, toNat_mod_ne_zero, next_actions, hc]

theorem next_calls_spec (c : Nat) (t : Target) (tms tdi : Nat → Bool) (g : Probe) (n : Nat) :
    (next_calls c t tms tdi n g).1 = (List.range n).map (nextAt t tms tdi g) ∧
      (next_calls c t tms tdi n g).2.edges = history g (fun j => (tms j, tdi j)) n ∧
      (next_calls c t tms tdi n g).2.log =
        g.log ++ trace (fun i => next_actions c (tms i) (tdi i) (nextAt t tms tdi g i)) n ∧
      (next_calls c t tms tdi n g).2.tck = (decide (n = 0) && g.tck) ∧
      (next_calls c t tms tdi n g).2.jtag_proc = g.jtag_proc := by
  induction n with
  | zero => simp [next_calls, history_zero, trace_zero]
  | succ n ih =>
    obtain ⟨i1, i2, i3, i4, i5⟩ := ih
    obtain ⟨j1, j2, j3, j4, j5⟩ :=
      jtagtap_next_spec c t (tms n) (tdi n) (next_calls c t tms tdi n g).2
    have hp := history_succ g (fun j => (tms j, tdi j)) n
    rw [i4, i2, ← hp] at j1 j2
    have hv : (jtagtap_next c t (tms n) (tdi n) (next_calls c t tms tdi n g).2).1 =
        nextAt t tms tdi g n := j1
    refine ⟨?_, ?_, ?_, ?_, ?_⟩
    · simp only [next_calls]; rw [i1, hv, List.range_succ, List.map_append]; rfl
    · simp only [next_calls]; exact j2
    · simp only [next_calls]; rw [j3, i3, hv, trace_succ, List.append_assoc]
    · simp only [next_calls]; rw [j4]; simp
    · simp only [next_calls]; rw [j5, i5]

/-! # The claims -/

theorem bit_packed (r : Nat → Bool) (N : Nat) (out0 : Nat → Nat) (i : Nat) (hi : i < N) :
    bit (packed r N out0) i = r i := by
  have e1 : 8 * (i / 8) < N := by omega
  have e2 : i % 8 < min 8 (N - 8 * (i / 8)) := by omega
  have e3 : 8 * (i / 8) + i % 8 = i := Nat.div_add_mod i 8
  simp [bit, packed, e1, testBit_pack, e2, e3]

theorem shiftLevels_eq (N : Nat) (f : Bool) (buf : Nat → Nat) (hN : 1 ≤ N) :
    (fun j => (decide (j = N - 1) && f, bit buf j)) = shiftLevels N f buf := by
  funext j
  have h : (j = N - 1) ↔ (j + 1 = N) := by omega
  simp [shiftLevels, tmsAt, h]

theorem nextAt_eq_tdoAt (t : Target) (N : Nat) (f : Bool) (buf : Nat → Nat) (g : Probe)
    (hN : 1 ≤ N) (i : Nat) :
    nextAt t (fun j => decide (j = N - 1) && f) (bit buf) g i = tdoAt t N f buf g i := by
  have h : (i = N - 1) ↔ (i + 1 = N) := by omega
  simp only [nextAt, tdoAt, shiftLevels_eq N f buf hN, tmsAt, h]

/-- C1 (primitive equivalence). For every length `N ≥ 1`, input buffer, `final_tms`, value of
the delay counter and deterministic target, bit `i` of the output buffer of
`jtagtap_tdi_tdo_seq` (byte `i / 8`, bit `i mod 8`) is the value returned by the `i`-th of
`N` successive calls `jtagtap_next(tms_i, tdi_i)` issued from the same state, `tdi_i` being
bit `i` of the input and `tms_i` being 0 before the last bit and `final_tms` on it. -/
theorem C1_tdi_tdo_seq_refines_next (c : Nat) (t : Target) (out : Nat → Nat) (final_tms : Bool)
    (buf : Nat → Nat) (N : Nat) (g : Probe) (hN : 1 ≤ N) (i : Nat) (hi : i < N) :
    (next_calls c t (fun j => decide (j = N - 1) && final_tms) (bit buf) N g).1[i]? =
      some (bit (jtagtap_tdi_tdo_seq c t out final_tms buf N g).1 i) := by
  rw [(next_calls_spec c t _ _ g N).1, (jtagtap_tdi_tdo_seq_spec c t out final_tms buf N g hN).1,
    bit_packed _ _ _ _ hi]
  simp [hi, nextAt_eq_tdoAt t N final_tms buf g hN]

/-- C1 for three bits of `0xB2` against the loopback fixture, bit 1. -/
theorem C1_witness :
    (1 ≤ 3 ∧ 1 < 3) ∧
      (next_calls 5 loopback (fun j => decide (j = 3 - 1) && true) (bit fun _ => 178) 3 idle).1[1]? =
        some (bit (jtagtap_tdi_tdo_seq 5 loopback (fun _ => 0) true (fun _ => 178) 3 idle).1 1) :=
  ⟨⟨by decide, by decide⟩,
    C1_tdi_tdo_seq_refines_next 5 loopback (fun _ => 0) true (fun _ => 178) 3 idle (by decide) 1
      (by decide)⟩

theorem tdoAt_loopback (N : Nat) (f : Bool) (buf : Nat → Nat) (g : Probe) :
    tdoAt loopback N f buf g = bit buf := rfl

/-- C2 (loopback). When TDO returns the level most recently written to TDI, for every
`N ≥ 1`, input buffer and `final_tms`, bits `0 .. N-1` of the output buffer of
`jtagtap_tdi_tdo_seq` equal bits `0 .. N-1` of the input buffer; and shifting the single
byte `0b10110010` with `N = 8` and `final_tms = false` leaves `0b10110010` in output
byte 0. -/
theorem C2_loopback (c : Nat) (out : Nat → Nat) (final_tms : Bool) (buf : Nat → Nat) (N : Nat)
    (g : Probe) (hN : 1 ≤ N) :
    (∀ i, i < N → bit (jtagtap_tdi_tdo_seq c loopback out final_tms buf N g).1 i = bit buf i) ∧
      (jtagtap_tdi_tdo_seq c loopback out false (fun _ => 0b10110010) 8 g).1 0 = 0b10110010 := by
  constructor
  · intro i hi
    rw [(jtagtap_tdi_tdo_seq_spec c loopback out final_tms buf N g hN).1, bit_packed _ _ _ _ hi,
      tdoAt_loopback]
  · rw [(jtagtap_tdi_tdo_seq_spec c loopback out false _ 8 g (by norm_num)).1, tdoAt_loopback]
    have h := pack_bit (fun _ => 0b10110010) 0
    simp only [packed]
    norm_num
    exact h

/-- C2 for eleven bits of `0x4D`, from the idle state. -/
theorem C2_witness :
    1 ≤ 11 ∧
      ((∀ i, i < 11 →
          bit (jtagtap_tdi_tdo_seq 0 loopback (fun _ => 255) true (fun _ => 77) 11 idle).1 i =
            bit (fun _ => 77) i) ∧
        (jtagtap_tdi_tdo_seq 0 loopback (fun _ => 255) false (fun _ => 0b10110010) 8 idle).1 0 =
          0b10110010) :=
  ⟨by decide, C2_loopback 0 (fun _ => 255) true (fun _ => 77) 11 idle (by decide)⟩

theorem tmsWrites_append (a b : List Action) :
    tmsWrites (a ++ b) = tmsWrites a ++ tmsWrites b := by
  simp [tmsWrites]

/-- C3, as stated, fails: from the idle state `jtagtap_tms_seq(0xE73C, 16)` does not put the
sequence 0,0,1,1,1,1,0,0,1,1,1,0,0,1,0,1 on TMS at its sixteen rising edges (bit 14 of
`0xE73C` is 1). -/
theorem C3_counterexample :
    (jtagtap_tms_seq 0 0xE73C 16 idle).edges.map Prod.fst ≠
      [false, false, true, true, true, true, false, false,
        true, true, true, false, false, true, false, true] := by
  decide

/-- C3, amended. `jtagtap_tms_seq(0xE73C, 16)` writes to TMS, one value per clock pulse and
low bit first, exactly the sequence 0,0,1,1,1,1,0,0,1,1,1,0,0,1,1,1, and these are the TMS
levels at its sixteen rising edges of TCK. -/
theorem C3_tms_seq_E73C (c : Nat) (g : Probe) (hck : g.tck = false) :
    tmsWrites (jtagtap_tms_seq c 0xE73C 16 g).log =
        tmsWrites g.log ++
          [false, false, true, true, true, true, false, false,
            true, true, true, false, false, true, true, true] ∧
      (jtagtap_tms_seq c 0xE73C 16 g).edges.map Prod.fst =
        g.edges.map Prod.fst ++
          [false, false, true, true, true, true, false, false,
            true, true, true, false, false, true, true, true] := by
  obtain ⟨h1, h2, -⟩ := jtagtap_tms_seq_spec c 0xE73C 16 g
  constructor
  · rw [h2, tmsWrites_append]
    congr 1
    cases branch c <;> rfl
  · rw [h1, history_low _ _ _ hck, List.map_append]
    congr 1

/-- C3, amended, at the idle state with the delay counter at 3. -/
theorem C3_witness :
    idle.tck = false ∧
      (tmsWrites (jtagtap_tms_seq 3 0xE73C 16 idle).log =
          tmsWrites idle.log ++
            [false, false, true, true, true, true, false, false,
              true, true, true, false, false, true, true, true] ∧
        (jtagtap_tms_seq 3 0xE73C 16 idle).edges.map Prod.fst =
          idle.edges.map Prod.fst ++
            [false, false, true, true, true, true, false, false,
              true, true, true, false, false, true, true, true]) :=
  ⟨rfl, C3_tms_seq_E73C 3 idle rfl⟩

theorem map_fst_shiftLevels (N : Nat) (f : Bool) (buf : Nat → Nat) (hN : 1 ≤ N) :
    ((List.range N).map (shiftLevels N f buf)).map Prod.fst =
      List.replicate (N - 1) false ++ [f] := by
  obtain ⟨n, rfl⟩ : ∃ n, N = n + 1 := ⟨N - 1, by omega⟩
  rw [List.range_succ, List.map_append, List.map_append, Nat.add_sub_cancel]
  congr 1
  · rw [List.map_map, List.eq_replicate_iff]
    constructor
    · simp
    · intro b hb
      obtain ⟨i, hi, rfl⟩ := List.mem_map.mp hb
      have hlt : i < n := List.mem_range.mp hi
      have hne : ¬ (i + 1 = n + 1) := by omega
      simp [shiftLevels, tmsAt, hne]
  · simp [shiftLevels, tmsAt]

/-- C4 (final-TMS placement). For every `N > 1`, input buffer and `final_tms`, in both
`jtagtap_tdi_seq` and `jtagtap_tdi_tdo_seq` the TMS level is 0 at each of the first `N - 1`
rising edges of TCK and is `final_tms` at the `N`-th, last one. -/
theorem C4_final_tms_placement (c : Nat) (t : Target) (out : Nat → Nat) (final_tms : Bool)
    (buf : Nat → Nat) (N : Nat) (g : Probe) (hN : 1 < N) (hck : g.tck = false) :
    (jtagtap_tdi_seq c final_tms buf N g).edges.map Prod.fst =
        g.edges.map Prod.fst ++ (List.replicate (N - 1) false ++ [final_tms]) ∧
      (jtagtap_tdi_tdo_seq c t out final_tms buf N g).2.edges.map Prod.fst =
        g.edges.map Prod.fst ++ (List.replicate (N - 1) false ++ [final_tms]) := by
  have h1 := (jtagtap_tdi_seq_spec c final_tms buf N g).1
  have h2 := (jtagtap_tdi_tdo_seq_spec c t out final_tms buf N g (by omega)).2.1
  rw [h1, h2, history_low _ _ _ hck, List.map_append,
    map_fst_shiftLevels N final_tms buf (by omega)]
  exact ⟨rfl, rfl⟩

/-- C4 for five bits of `0x15` with `final_tms` set, from the idle state. -/
theorem C4_witness :
    (1 < 5 ∧ idle.tck = false) ∧
      ((jtagtap_tdi_seq 0 true (fun _ => 21) 5 idle).edges.map Prod.fst =
          idle.edges.map Prod.fst ++ (List.replicate (5 - 1) false ++ [true]) ∧
        (jtagtap_tdi_tdo_seq 0 loopback (fun _ => 0) true (fun _ => 21) 5 idle).2.edges.map
            Prod.fst =
          idle.edges.map Prod.fst ++ (List.replicate (5 - 1) false ++ [true])) :=
  ⟨⟨by decide, rfl⟩,
    C4_final_tms_placement 0 loopback (fun _ => 0) true (fun _ => 21) 5 idle (by decide) rfl⟩

theorem drive_TDI_not_mem_trace_tms (d : Option Nat) (M : Nat) (v : Bool) (k : Nat) :
    Action.drive Line.TDI v ∉ trace (tms_pulse d M) k := by
  induction k with
  | zero => simp [trace_zero]
  | succ k ih =>
    rw [trace_succ, List.mem_append, not_or]
    refine ⟨ih, ?_⟩
    cases d <;> simp [tms_pulse, waits]

/-- C5. For every 32-bit value `MS` and every `count` (in particular every `count ≤ 32`), `jtagtap_tms_seq(MS, count)`
writes TDI = 1 once, before the first pulse, and never writes TDI again, and at the `i`-th
rising edge of TCK (`0 ≤ i < count`) the TMS level is bit `i` of `MS`, least-significant
bit first, and the TDI level is 1. -/
theorem C5_tms_seq_bits (c MS count : Nat) (g : Probe) (hMS : MS < 2 ^ 32)
    (hck : g.tck = false) :
    (∃ rest, (jtagtap_tms_seq c MS count g).log = g.log ++ Action.drive Line.TDI true :: rest ∧
        ∀ v, Action.drive Line.TDI v ∉ rest) ∧
      (jtagtap_tms_seq c MS count g).edges =
        g.edges ++ (List.range count).map (fun i => (MS.testBit i, true)) := by
  obtain ⟨h1, h2, -⟩ := jtagtap_tms_seq_spec c MS count g
  have hmod : MS % 4294967296 = MS := Nat.mod_eq_of_lt (by simpa using hMS)
  rw [hmod] at h1 h2
  refine ⟨⟨_, h2, fun v => drive_TDI_not_mem_trace_tms _ _ _ _⟩, ?_⟩
  rw [h1, history_low _ _ _ hck]

/-- C5 for the five low bits of `0x16`, from the idle state. -/
theorem C5_witness :
    (22 < 2 ^ 32 ∧ idle.tck = false) ∧
      ((∃ rest, (jtagtap_tms_seq 0 22 5 idle).log =
            idle.log ++ Action.drive Line.TDI true :: rest ∧
          ∀ v, Action.drive Line.TDI v ∉ rest) ∧
        (jtagtap_tms_seq 0 22 5 idle).edges =
          idle.edges ++ (List.range 5).map (fun i => (Nat.testBit 22 i, true))) :=
  ⟨⟨by norm_num, rfl⟩, C5_tms_seq_bits 0 22 5 idle (by norm_num) rfl⟩

theorem map_snd_shiftLevels (N : Nat) (f : Bool) (buf : Nat → Nat) (k : Nat) :
    ((List.range k).map (shiftLevels N f buf)).map Prod.snd = (List.range k).map (bit buf) := by
  rw [List.map_map]
  rfl

theorem sample_not_mem_trace_tdi (d : Option Nat) (N : Nat) (f : Bool) (buf : Nat → Nat)
    (v : Bool) (k : Nat) : Action.sample v ∉ trace (tdi_pulse d N f buf) k := by
  induction k with
  | zero => simp [trace_zero]
  | succ k ih =>
    rw [trace_succ, List.mem_append, not_or]
    refine ⟨ih, ?_⟩
    cases d <;> simp [tdi_pulse, waits]

theorem load_mem_trace_tdi (d : Option Nat) (N : Nat) (f : Bool) (buf : Nat → Nat)
    (b : Nat) (k : Nat) (h : Action.load b ∈ trace (tdi_pulse d N f buf) k) :
    b < (k + 7) / 8 := by
  induction k with
  | zero => simp [trace_zero] at h
  | succ k ih =>
    rw [trace_succ, List.mem_append] at h
    rcases h with h | h
    · have := ih h
      omega
    · have hb : b = k / 8 := by
        cases d <;> simpa [tdi_pulse, waits] using h
      omega

/-- C6. For every `N` (in particular every `N ≥ 1`), input buffer and `final_tms`, `jtagtap_tdi_seq` puts on TDI at the
`i`-th rising edge of TCK (`0 ≤ i < N`) bit `i mod 8`, counted from the least-significant
bit, of byte `⌊i/8⌋` of the input buffer; it never reads TDO, and it reads no input byte
beyond the first `⌈N/8⌉`. -/
theorem C6_tdi_seq_bits (c : Nat) (final_tms : Bool) (buf : Nat → Nat) (N : Nat) (g : Probe)
    (hck : g.tck = false) :
    (jtagtap_tdi_seq c final_tms buf N g).edges.map Prod.snd =
        g.edges.map Prod.snd ++ (List.range N).map (fun i => (buf (i / 8)).testBit (i % 8)) ∧
      ∃ new, (jtagtap_tdi_seq c final_tms buf N g).log = g.log ++ new ∧
        (∀ v, Action.sample v ∉ new) ∧ ∀ b, Action.load b ∈ new → b < (N + 7) / 8 := by
  obtain ⟨h1, h2, -⟩ := jtagtap_tdi_seq_spec c final_tms buf N g
  constructor
  · rw [h1, history_low _ _ _ hck, List.map_append, map_snd_shiftLevels]
    rfl
  · exact ⟨_, h2, fun v => sample_not_mem_trace_tdi _ _ _ _ _ _,
      fun b hb => load_mem_trace_tdi _ _ _ _ _ _ hb⟩

/-- C6 for eleven bits, from the idle state. -/
theorem C6_witness :
    idle.tck = false ∧
      ((jtagtap_tdi_seq 2 true (fun k => 165 + k) 11 idle).edges.map Prod.snd =
          idle.edges.map Prod.snd ++
            (List.range 11).map (fun i => Nat.testBit (165 + i / 8) (i % 8)) ∧
        ∃ new, (jtagtap_tdi_seq 2 true (fun k => 165 + k) 11 idle).log = idle.log ++ new ∧
          (∀ v, Action.sample v ∉ new) ∧ ∀ b, Action.load b ∈ new → b < (11 + 7) / 8) :=
  ⟨rfl, C6_tdi_seq_bits 2 true (fun k => 165 + k) 11 idle rfl⟩

/-- C7 (single-bit transfer). For every `tms`, `tdi` and value of the delay counter,
`jtagtap_next(tms, tdi)` performs exactly: write TMS, write TDI, raise TCK, delay, read TDO,
lower TCK, delay. TDO is read once, in the state reached by the raise, where TCK is high,
and the function returns the level read. -/
theorem C7_next_order (c : Nat) (t : Target) (tms tdi : Bool) (g : Probe) :
    (jtagtap_next c t tms tdi g).2.log =
        g.log ++
          [Action.drive Line.TMS tms, Action.drive Line.TDI tdi, Action.drive Line.TCK true,
            Action.wait (iterations c), Action.sample (jtagtap_next c t tms tdi g).1,
            Action.drive Line.TCK false, Action.wait (iterations c)] ∧
      (gpio_set Line.TCK (gpio_set_val Line.TDI tdi.toNat
        (gpio_set_val Line.TMS tms.toNat g))).tck = true ∧
      (jtagtap_next c t tms tdi g).1 =
        ((gpio_get t (delay_loop c (gpio_set Line.TCK (gpio_set_val Line.TDI tdi.toNat
          (gpio_set_val Line.TMS tms.toNat g))))).1 != 0) ∧
      (jtagtap_next c t tms tdi g).1 =
        t tms tdi true (if g.tck then g.edges else g.edges ++ [(tms, tdi)]) := by
  obtain ⟨h1, -, h3, -⟩ := jtagtap_next_spec c t tms tdi g
  refine ⟨h3, rfl, ?_, h1⟩
  simp [jtagtap_next, toNat_mod_ne_zero, toNat_ne_zero, gpio_get]

theorem withoutWaits_drive (l : Line) (v : Bool) (rest : List Action) :
    withoutWaits (Action.drive l v :: rest) = Action.drive l v :: withoutWaits rest := by
  simp [withoutWaits]

theorem withoutWaits_tms_pulse (d : Option Nat) (M i : Nat) :
    withoutWaits (tms_pulse d M i) = tms_pulse none M i := by
  cases d <;> simp [tms_pulse, waits, withoutWaits]

theorem withoutWaits_tdi_pulse (d : Option Nat) (N : Nat) (f : Bool) (buf : Nat → Nat) (i : Nat) :
    withoutWaits (tdi_pulse d N f buf i) = tdi_pulse none N f buf i := by
  cases d <;> simp [tdi_pulse, waits, withoutWaits]

theorem withoutWaits_tdo_pulse (d : Option Nat) (t : Target) (N : Nat) (f : Bool)
    (buf : Nat → Nat) (g : Probe) (i : Nat) :
    withoutWaits (tdo_pulse d t N f buf g i) = tdo_pulse none t N f buf g i := by
  by_cases h : i % 8 = 7 <;> cases d <;> simp [tdo_pulse, waits, withoutWaits, h]

theorem withoutWaits_tdo_last_pulse (c : Nat) (t : Target) (N : Nat) (f : Bool)
    (buf : Nat → Nat) (g : Probe) (i : Nat) :
    withoutWaits (tdo_last_pulse c t N f buf g i) =
      withoutWaits (tdo_last_pulse 0 t N f buf g i) := by
  simp [tdo_last_pulse, withoutWaits]

theorem withoutWaits_tdi_tdo_seq (c : Nat) (t : Target) (out : Nat → Nat) (f : Bool)
    (buf : Nat → Nat) (N : Nat) (g : Probe) (hN : 1 ≤ N) :
    withoutWaits (jtagtap_tdi_tdo_seq c t out f buf N g).2.log =
      withoutWaits g.log ++ Action.drive Line.TMS false ::
        (trace (tdo_pulse none t N f buf g) (N - 1) ++
          withoutWaits (tdo_last_pulse 0 t N f buf g (N - 1))) := by
  rw [(jtagtap_tdi_tdo_seq_spec c t out f buf N g hN).2.2.1, withoutWaits_append,
    withoutWaits_drive, withoutWaits_append,
    withoutWaits_trace _ _ _ (fun i _ => withoutWaits_tdo_pulse _ t N f buf g i),
    withoutWaits_tdo_last_pulse]

/-- C8 (delay invariance). For every input and deterministic target, the log of
`jtagtap_tms_seq`, of `jtagtap_tdi_seq` and of `jtagtap_tdi_tdo_seq` with the entries of the
delay loops left out, and the output buffer, are the same for `swd_delay_cnt = 0` and for
any other value of `swd_delay_cnt`. -/
theorem C8_delay_invariance (c : Nat) (t : Target) (out : Nat → Nat) (final_tms : Bool)
    (buf : Nat → Nat) (MS N : Nat) (g : Probe) :
    withoutWaits (jtagtap_tms_seq c MS N g).log = withoutWaits (jtagtap_tms_seq 0 MS N g).log ∧
      withoutWaits (jtagtap_tdi_seq c final_tms buf N g).log =
        withoutWaits (jtagtap_tdi_seq 0 final_tms buf N g).log ∧
      withoutWaits (jtagtap_tdi_tdo_seq c t out final_tms buf N g).2.log =
        withoutWaits (jtagtap_tdi_tdo_seq 0 t out final_tms buf N g).2.log ∧
      (jtagtap_tdi_tdo_seq c t out final_tms buf N g).1 =
        (jtagtap_tdi_tdo_seq 0 t out final_tms buf N g).1 := by
  refine ⟨?_, ?_, ?_, ?_⟩
  · rw [(jtagtap_tms_seq_spec c MS N g).2.1, (jtagtap_tms_seq_spec 0 MS N g).2.1]
    rw [withoutWaits_append, withoutWaits_append, withoutWaits_drive, withoutWaits_drive,
      withoutWaits_trace _ _ _ (fun i _ => withoutWaits_tms_pulse (branch c) _ i),
      withoutWaits_trace _ _ _ (fun i _ => withoutWaits_tms_pulse (branch 0) _ i)]
  · rw [(jtagtap_tdi_seq_spec c final_tms buf N g).2.1,
      (jtagtap_tdi_seq_spec 0 final_tms buf N g).2.1]
    simp only [withoutWaits_append]
    rw [withoutWaits_trace _ _ _ (fun i _ => withoutWaits_tdi_pulse (branch c) N final_tms buf i),
      withoutWaits_trace _ _ _ (fun i _ => withoutWaits_tdi_pulse (branch 0) N final_tms buf i)]
  · rcases Nat.eq_zero_or_pos N with h0 | h1
    · subst h0
      rw [jtagtap_tdi_tdo_seq_zero, jtagtap_tdi_tdo_seq_zero 0,
        withoutWaits_tdi_tdo_seq c t out final_tms buf 1 g (by norm_num),
        withoutWaits_tdi_tdo_seq 0 t out final_tms buf 1 g (by norm_num)]
    · rw [withoutWaits_tdi_tdo_seq c t out final_tms buf N g h1,
        withoutWaits_tdi_tdo_seq 0 t out final_tms buf N g h1]
  · rcases Nat.eq_zero_or_pos N with h0 | h1
    · subst h0
      rw [jtagtap_tdi_tdo_seq_zero, jtagtap_tdi_tdo_seq_zero 0,
        (jtagtap_tdi_tdo_seq_spec c t out final_tms buf 1 g (by norm_num)).1,
        (jtagtap_tdi_tdo_seq_spec 0 t out final_tms buf 1 g (by norm_num)).1]
    · rw [(jtagtap_tdi_tdo_seq_spec c t out final_tms buf N g h1).1,
        (jtagtap_tdi_tdo_seq_spec 0 t out final_tms buf N g h1).1]

theorem shiftLevels_congr (N : Nat) (f : Bool) (buf1 buf2 : Nat → Nat) (i : Nat)
    (h : bit buf1 i = bit buf2 i) : shiftLevels N f buf1 i = shiftLevels N f buf2 i := by
  simp [shiftLevels, h]

theorem tdi_pulse_congr (d : Option Nat) (N : Nat) (f : Bool) (buf1 buf2 : Nat → Nat) (i : Nat)
    (h : bit buf1 i = bit buf2 i) : tdi_pulse d N f buf1 i = tdi_pulse d N f buf2 i := by
  simp [tdi_pulse, h]

theorem tdoAt_congr (t : Target) (N : Nat) (f : Bool) (buf1 buf2 : Nat → Nat) (g : Probe)
    (h : ∀ i, i < N → bit buf1 i = bit buf2 i) (i : Nat) (hi : i < N) :
    tdoAt t N f buf1 g i = tdoAt t N f buf2 g i := by
  unfold tdoAt
  rw [h i hi, history_congr g _ (shiftLevels N f buf2) (i + 1)
    (fun j hj => shiftLevels_congr N f buf1 buf2 j (h j (by omega)))]

theorem tdo_pulse_congr (d : Option Nat) (t : Target) (N : Nat) (f : Bool)
    (buf1 buf2 : Nat → Nat) (g : Probe) (h : ∀ i, i < N → bit buf1 i = bit buf2 i) (i : Nat)
    (hi : i < N) : tdo_pulse d t N f buf1 g i = tdo_pulse d t N f buf2 g i := by
  unfold tdo_pulse
  rw [h i hi, tdoAt_congr t N f buf1 buf2 g h i hi]
  by_cases h7 : i % 8 = 7
  · rw [pack_congr (tdoAt t N f buf1 g) (tdoAt t N f buf2 g) (8 * (i / 8)) 8
      (fun j hj => tdoAt_congr t N f buf1 buf2 g h _ (by omega))]
  · simp [h7]

theorem tdo_last_pulse_congr (c : Nat) (t : Target) (N : Nat) (f : Bool)
    (buf1 buf2 : Nat → Nat) (g : Probe) (h : ∀ i, i < N → bit buf1 i = bit buf2 i) (i : Nat)
    (hi : i < N) : tdo_last_pulse c t N f buf1 g i = tdo_last_pulse c t N f buf2 g i := by
  unfold tdo_last_pulse
  rw [h i hi, tdoAt_congr t N f buf1 buf2 g h i hi,
    pack_congr (tdoAt t N f buf1 g) (tdoAt t N f buf2 g) (8 * (i / 8)) (i % 8 + 1)
      (fun j hj => tdoAt_congr t N f buf1 buf2 g h _ (by omega))]

theorem packed_congr (r r' : Nat → Bool) (N : Nat) (out0 : Nat → Nat)
    (h : ∀ i, i < N → r i = r' i) : packed r N out0 = packed r' N out0 := by
  funext b
  unfold packed
  by_cases hb : 8 * b < N
  · rw [if_pos hb, if_pos hb]
    exact pack_congr r r' _ _ (fun j hj => h _ (by omega))
  · rw [if_neg hb, if_neg hb]

theorem load_mem_trace_tdo (d : Option Nat) (t : Target) (N : Nat) (f : Bool)
    (buf : Nat → Nat) (g : Probe) (b : Nat) (k : Nat)
    (h : Action.load b ∈ trace (tdo_pulse d t N f buf g) k) : b < (k + 7) / 8 := by
  induction k with
  | zero => simp [trace_zero] at h
  | succ k ih =>
    rw [trace_succ, List.mem_append] at h
    rcases h with h | h
    · have := ih h
      omega
    · have hb : b = k / 8 := by
        by_cases h7 : k % 8 = 7 <;> cases d <;> simpa [tdo_pulse, waits, h7] using h
      omega

/-- C9 (don't-care bits). For every `N ≥ 1` and `final_tms`, if two input buffers agree on
the bits `0 .. N-1`, then `jtagtap_tdi_seq` and `jtagtap_tdi_tdo_seq` perform the same
actions on both (the same line writes, loads, TDO reads and stores, in the same order),
`jtagtap_tdi_tdo_seq` leaves the same output buffer against the same target, and no input
byte at index `⌈N/8⌉` or beyond is read. -/
theorem C9_dont_care_bits (c : Nat) (t : Target) (out : Nat → Nat) (final_tms : Bool)
    (buf1 buf2 : Nat → Nat) (N : Nat) (g : Probe) (hN : 1 ≤ N)
    (h : ∀ i, i < N → bit buf1 i = bit buf2 i) :
    (jtagtap_tdi_seq c final_tms buf1 N g).log = (jtagtap_tdi_seq c final_tms buf2 N g).log ∧
      (jtagtap_tdi_tdo_seq c t out final_tms buf1 N g).2.log =
        (jtagtap_tdi_tdo_seq c t out final_tms buf2 N g).2.log ∧
      (jtagtap_tdi_tdo_seq c t out final_tms buf1 N g).1 =
        (jtagtap_tdi_tdo_seq c t out final_tms buf2 N g).1 ∧
      (∃ new, (jtagtap_tdi_seq c final_tms buf1 N g).log = g.log ++ new ∧
        ∀ b, Action.load b ∈ new → b < (N + 7) / 8) ∧
      ∃ new, (jtagtap_tdi_tdo_seq c t out final_tms buf1 N g).2.log = g.log ++ new ∧
        ∀ b, Action.load b ∈ new → b < (N + 7) / 8 := by
  obtain ⟨a1, -, a3, -⟩ := jtagtap_tdi_tdo_seq_spec c t out final_tms buf1 N g hN
  obtain ⟨b1, -, b3, -⟩ := jtagtap_tdi_tdo_seq_spec c t out final_tms buf2 N g hN
  have d1 := (jtagtap_tdi_seq_spec c final_tms buf1 N g).2.1
  have d2 := (jtagtap_tdi_seq_spec c final_tms buf2 N g).2.1
  refine ⟨?_, ?_, ?_, ⟨_, d1, fun b hb => load_mem_trace_tdi _ _ _ _ _ _ hb⟩, ⟨_, a3, ?_⟩⟩
  · rw [d1, d2, trace_congr _ _ N
      (fun i hi => tdi_pulse_congr (branch c) N final_tms buf1 buf2 i (h i hi))]
  · rw [a3, b3, trace_congr _ _ (N - 1)
      (fun i hi => tdo_pulse_congr (branch c) t N final_tms buf1 buf2 g h i (by omega)),
      tdo_last_pulse_congr c t N final_tms buf1 buf2 g h (N - 1) (by omega)]
  · rw [a1, b1]
    exact packed_congr _ _ N out (tdoAt_congr t N final_tms buf1 buf2 g h)
  · intro b hb
    rw [List.mem_cons, List.mem_append] at hb
    rcases hb with hb | hb | hb
    · cases hb
    · have := load_mem_trace_tdo _ _ _ _ _ _ _ _ hb
      omega
    · have hb' : b = (N - 1) / 8 := by simpa [tdo_last_pulse] using hb
      omega

/-- C9 for eleven bits of two buffers that differ above bit 10. -/
theorem C9_witness :
    (1 ≤ 11 ∧ ∀ i, i < 11 → bit (fun k => if k = 1 then 5 else 200) i =
        bit (fun k => if k = 0 then 200 else if k = 1 then 253 else 9) i) ∧
      ((jtagtap_tdi_seq 0 true (fun k => if k = 1 then 5 else 200) 11 idle).log =
          (jtagtap_tdi_seq 0 true (fun k => if k = 0 then 200 else if k = 1 then 253 else 9) 11
            idle).log ∧
        (jtagtap_tdi_tdo_seq 0 loopback (fun _ => 0) true (fun k => if k = 1 then 5 else 200) 11
            idle).2.log =
          (jtagtap_tdi_tdo_seq 0 loopback (fun _ => 0) true
            (fun k => if k = 0 then 200 else if k = 1 then 253 else 9) 11 idle).2.log ∧
        (jtagtap_tdi_tdo_seq 0 loopback (fun _ => 0) true (fun k => if k = 1 then 5 else 200) 11
            idle).1 =
          (jtagtap_tdi_tdo_seq 0 loopback (fun _ => 0) true
            (fun k => if k = 0 then 200 else if k = 1 then 253 else 9) 11 idle).1 ∧
        (∃ new, (jtagtap_tdi_seq 0 true (fun k => if k = 1 then 5 else 200) 11 idle).log =
            idle.log ++ new ∧
          ∀ b, Action.load b ∈ new → b < (11 + 7) / 8) ∧
        ∃ new, (jtagtap_tdi_tdo_seq 0 loopback (fun _ => 0) true
              (fun k => if k = 1 then 5 else 200) 11 idle).2.log = idle.log ++ new ∧
          ∀ b, Action.load b ∈ new → b < (11 + 7) / 8) :=
  ⟨⟨by decide, by decide⟩,
    C9_dont_care_bits 0 loopback (fun _ => 0) true (fun k => if k = 1 then 5 else 200)
      (fun k => if k = 0 then 200 else if k = 1 then 253 else 9) 11 idle (by decide)
      (by decide)⟩

theorem init_next_loop_eq (c : Nat) (t : Target) :
    ∀ (m i : Nat) (g : Probe), i + m = 51 →
      init_next_loop c t i g = (fun p => (jtagtap_next c t true false p).2)^[m] g := by
  intro m
  induction m with
  | zero =>
    intro i g hi
    have h : ¬ (i ≤ 50) := by omega
    rw [init_next_loop, if_neg h]
    rfl
  | succ m ih =>
    intro i g hi
    have h : i ≤ 50 := by omega
    rw [init_next_loop, if_pos h, ih (i + 1) _ (by omega), Function.iterate_succ_apply]

theorem next_calls_const (c : Nat) (t : Target) (tms tdi : Bool) (n : Nat) (g : Probe) :
    (next_calls c t (fun _ => tms) (fun _ => tdi) n g).2 =
      (fun p => (jtagtap_next c t tms tdi p).2)^[n] g := by
  induction n with
  | zero => rfl
  | succ n ih =>
    rw [Function.iterate_succ_apply', ← ih]
    rfl

/-- C10 (mode-entry sequence). `jtagtap_init` first configures the lines and installs all
five entries of `jtag_proc`, reaching a state `g1` with nothing else done; from there it issues, in this order and
with nothing in between, `n = 51 ≥ 50` consecutive calls `jtagtap_next(1, 0)`, then
`jtagtap_tms_seq(0xE73C, 16)`, which writes TDI = 1 once and gives 16 pulses, and then
calls `jtagtap_soft_reset` once. -/
theorem C10_mode_entry (c : Nat) (t : Target) (dir : Int) (soft_reset : Probe → Probe)
    (g : Probe) :
    ∃ (g1 : Probe) (n : Nat), 50 ≤ n ∧
      g1.jtag_proc =
        { jtagtap_reset := some Op.jtagtap_reset
          jtagtap_next := some Op.jtagtap_next
          jtagtap_tms_seq := some Op.jtagtap_tms_seq
          jtagtap_tdi_tdo_seq := some Op.jtagtap_tdi_tdo_seq
          jtagtap_tdi_seq := some Op.jtagtap_tdi_seq } ∧
      g1.log = g.log ++
        ([Action.resetPin Gpio.TDI, Action.resetPin Gpio.TDO, Action.resetPin Gpio.TMS_SWDIO,
            Action.resetPin Gpio.TCK_SWCLK] ++
          (if dir ≥ 0 then [Action.resetPin Gpio.TMS_SWDIO_DIR] else []) ++
          [Action.direction Gpio.TDI true, Action.direction Gpio.TDO false,
            Action.direction Gpio.TMS_SWDIO true, Action.direction Gpio.TCK_SWCLK true] ++
          (if dir ≥ 0 then [Action.direction Gpio.TMS_SWDIO_DIR true] else []) ++
          [Action.tmsSetMode, Action.install Op.jtagtap_reset, Action.install Op.jtagtap_next,
            Action.install Op.jtagtap_tms_seq, Action.install Op.jtagtap_tdi_tdo_seq,
            Action.install Op.jtagtap_tdi_seq]) ∧
      jtagtap_init c t dir soft_reset g =
        soft_reset (jtagtap_tms_seq c 0xE73C 16
          (next_calls c t (fun _ => true) (fun _ => false) n g1).2) ∧
      (jtagtap_tms_seq c 0xE73C 16 (next_calls c t (fun _ => true) (fun _ => false) n g1).2).log =
        g1.log ++
          (trace (fun i => next_actions c true false
              (nextAt t (fun _ => true) (fun _ => false) g1 i)) n ++
            Action.drive Line.TDI true :: trace (tms_pulse (branch c) 0xE73C) 16) := by
  refine ⟨init_setup dir g, 51, by norm_num, ?_, ?_, ?_, ?_⟩
  · rfl
  · by_cases hd : dir ≥ 0
    · simp [init_setup, if_pos hd, install_jtag_proc, TMS_SET_MODE, gpio_set_direction,
        gpio_reset_pin, Probe.record]
    · simp [init_setup, if_neg hd, install_jtag_proc, TMS_SET_MODE, gpio_set_direction,
        gpio_reset_pin, Probe.record]
  · rw [next_calls_const, ← init_next_loop_eq c t 51 0 _ rfl]
    rfl
  · rw [(jtagtap_tms_seq_spec c 0xE73C 16 _).2.1, (next_calls_spec c t _ _ _ 51).2.2.1,
      List.append_assoc]

/-! ## The TAP controller under the mode-entry sequence -/

theorem tapRun_append (s : TapState) (a b : List Bool) :
    tapRun s (a ++ b) = tapRun (tapRun s a) b := by
  simp [tapRun]

theorem tapRun_ones_reset (n : Nat) :
    tapRun TapState.TestLogicReset (List.replicate n true) = TapState.TestLogicReset := by
  induction n with
  | zero => rfl
  | succ n ih => rw [List.replicate_succ]; exact ih

theorem tapRun_five_ones (s : TapState) :
    tapRun s (List.replicate 5 true) = TapState.TestLogicReset := by
  cases s <;> rfl

theorem tapRun_ones (s : TapState) (n : Nat) (hn : 5 ≤ n) :
    tapRun s (List.replicate n true) = TapState.TestLogicReset := by
  obtain ⟨m, rfl⟩ : ∃ m, n = 5 + m := ⟨n - 5, by omega⟩
  rw [List.replicate_add, tapRun_append, tapRun_five_ones, tapRun_ones_reset]

theorem jtagtap_init_eq (c : Nat) (t : Target) (dir : Int) (soft_reset : Probe → Probe)
    (g : Probe) :
    jtagtap_init c t dir soft_reset g =
      soft_reset (jtagtap_tms_seq c 0xE73C 16
        (next_calls c t (fun _ => true) (fun _ => false) 51 (init_setup dir g)).2) := by
  rw [next_calls_const, ← init_next_loop_eq c t 51 0 _ rfl]
  rfl

theorem init_setup_lines (dir : Int) (g : Probe) :
    (init_setup dir g).edges = g.edges ∧ (init_setup dir g).tck = g.tck := by
  by_cases hd : dir ≥ 0 <;>
    simp [init_setup, hd, install_jtag_proc, TMS_SET_MODE, gpio_set_direction, gpio_reset_pin,
      Probe.record]

/-- The TMS levels at the rising edges of `jtagtap_init`: at least 50 ones, the sixteen bits
of `0xE73C`, and the TMS levels `seq` of the soft reset. -/
theorem jtagtap_init_tms (c : Nat) (t : Target) (dir : Int) (soft_reset : Probe → Probe)
    (seq : List Bool)
    (hsr : ∀ p : Probe, p.tck = false →
      (soft_reset p).edges.map Prod.fst = p.edges.map Prod.fst ++ seq ∧
        (soft_reset p).tck = false)
    (g : Probe) :
    (∃ n, 50 ≤ n ∧ (jtagtap_init c t dir soft_reset g).edges.map Prod.fst =
        g.edges.map Prod.fst ++ (List.replicate n true ++ (swdToJtag ++ seq))) ∧
      (jtagtap_init c t dir soft_reset g).tck = false := by
  rw [jtagtap_init_eq]
  obtain ⟨-, n2, -, n4, -⟩ :=
    next_calls_spec c t (fun _ => true) (fun _ => false) (init_setup dir g) 51
  obtain ⟨s1, s2⟩ := init_setup_lines dir g
  obtain ⟨m1, -, m3, -⟩ := jtagtap_tms_seq_spec c 0xE73C 16
    (next_calls c t (fun _ => true) (fun _ => false) 51 (init_setup dir g)).2
  have hck1 : (next_calls c t (fun _ => true) (fun _ => false) 51 (init_setup dir g)).2.tck =
      false := by rw [n4]; rfl
  have hck2 : (jtagtap_tms_seq c 0xE73C 16
      (next_calls c t (fun _ => true) (fun _ => false) 51 (init_setup dir g)).2).tck = false := by
    rw [m3]; rfl
  obtain ⟨r1, r2⟩ := hsr _ hck2
  refine ⟨⟨51 - g.tck.toNat, ?_, ?_⟩, r2⟩
  · cases g.tck <;> simp
  · have e1 : (((List.range 51).map (fun (_ : Nat) => (true, false))).drop g.tck.toNat).map
        Prod.fst = List.replicate (51 - g.tck.toNat) true := by
      rw [List.map_drop, List.map_map,
        show (Prod.fst ∘ fun (_ : Nat) => (true, false)) = fun _ => true from rfl,
        List.map_const', List.drop_replicate, List.length_range]
    have e2 : ((List.range 16).map (fun i => (Nat.testBit (0xE73C % 4294967296) i, true))).map
        Prod.fst = swdToJtag := by
      rw [List.map_map]
      rfl
    rw [r1, m1, history_low _ _ _ hck1, List.map_append, e2, n2, history, List.map_append, s1,
      s2, e1, List.append_assoc, List.append_assoc]

/-- C11 (mode-entry idempotence). With the target a 16-state IEEE 1149.1 TAP controller
stepped by the TMS level at each rising edge of TCK, and the soft reset any operation that
gives rising edges with a fixed sequence `seq` of TMS levels and leaves TCK low: whatever
state the TAP is in when `jtagtap_init` is called, its state after two runs in a row is its
state after one run, and that state is the one reached from Test-Logic-Reset over the bits
of `0xE73C` and `seq`, the same for every starting state. -/
theorem C11_mode_entry_idempotent (c : Nat) (t : Target) (dir : Int)
    (soft_reset : Probe → Probe) (seq : List Bool)
    (hsr : ∀ p : Probe, p.tck = false →
      (soft_reset p).edges.map Prod.fst = p.edges.map Prod.fst ++ seq ∧
        (soft_reset p).tck = false)
    (s0 : TapState) (g : Probe) :
    tapState s0 (jtagtap_init c t dir soft_reset (jtagtap_init c t dir soft_reset g)) =
        tapState s0 (jtagtap_init c t dir soft_reset g) ∧
      tapState s0 (jtagtap_init c t dir soft_reset g) =
        tapRun TapState.TestLogicReset (swdToJtag ++ seq) := by
  obtain ⟨⟨n, hn, h1⟩, -⟩ := jtagtap_init_tms c t dir soft_reset seq hsr g
  obtain ⟨⟨m, hm, h2⟩, -⟩ :=
    jtagtap_init_tms c t dir soft_reset seq hsr (jtagtap_init c t dir soft_reset g)
  have once : tapState s0 (jtagtap_init c t dir soft_reset g) =
      tapRun TapState.TestLogicReset (swdToJtag ++ seq) := by
    rw [tapState, h1, tapRun_append, tapRun_append, tapRun_ones _ n (by omega)]
  refine ⟨?_, once⟩
  rw [once, tapState, h2, tapRun_append, tapRun_append, tapRun_ones _ m (by omega)]

theorem soft_reset_tms_seq (c MS n : Nat) (p : Probe) (hp : p.tck = false) :
    (jtagtap_tms_seq c MS n p).edges.map Prod.fst =
        p.edges.map Prod.fst ++ (List.range n).map (fun i => (MS % 4294967296).testBit i) ∧
      (jtagtap_tms_seq c MS n p).tck = false := by
  obtain ⟨m1, -, m3, -⟩ := jtagtap_tms_seq_spec c MS n p
  constructor
  · rw [m1, history_low _ _ _ hp, List.map_append, List.map_map]
    rfl
  · rw [m3, hp, Bool.and_false]

/-- C11 with the soft reset `jtagtap_tms_seq(0x1F, 6)`, the TAP in Shift-DR and the line
driver idle. -/
theorem C11_witness :
    (∀ p : Probe, p.tck = false →
        (jtagtap_tms_seq 0 0x1F 6 p).edges.map Prod.fst =
            p.edges.map Prod.fst ++ (List.range 6).map (fun i => (0x1F % 4294967296).testBit i) ∧
          (jtagtap_tms_seq 0 0x1F 6 p).tck = false) ∧
      (tapState TapState.ShiftDR
          (jtagtap_init 0 loopback 1 (jtagtap_tms_seq 0 0x1F 6)
            (jtagtap_init 0 loopback 1 (jtagtap_tms_seq 0 0x1F 6) idle)) =
          tapState TapState.ShiftDR (jtagtap_init 0 loopback 1 (jtagtap_tms_seq 0 0x1F 6) idle) ∧
        tapState TapState.ShiftDR (jtagtap_init 0 loopback 1 (jtagtap_tms_seq 0 0x1F 6) idle) =
          tapRun TapState.TestLogicReset
            (swdToJtag ++ (List.range 6).map (fun i => (0x1F % 4294967296).testBit i))) :=
  ⟨soft_reset_tms_seq 0 0x1F 6,
    C11_mode_entry_idempotent 0 loopback 1 (jtagtap_tms_seq 0 0x1F 6) _
      (soft_reset_tms_seq 0 0x1F 6) TapState.ShiftDR idle⟩

/-! ## The delay loop -/

theorem count_down_eq (n iters : Nat) : count_down n iters = n + iters := by
  induction n generalizing iters with
  | zero => simp [count_down]
  | succ n ih => rw [count_down, ih]; omega

theorem iterations_eq (c : Nat) : iterations c = (int32 ((c : Int) - 2)).toNat := by
  simp [iterations, count_down_eq]

theorem iterations_small (c : Nat) (hc : c ≤ 2147483649) : iterations c = c - 2 := by
  rw [iterations_eq, int32]
  omega

/-- C12, as stated, fails: the counter values 2147483649 ≤ 2147483650 give 2147483647
iterations and no iteration, because `swd_delay_cnt - 2 = 2147483648` does not fit the
32-bit signed `cnt`. -/
theorem C12_counterexample :
    2147483649 ≤ 2147483650 ∧ iterations 2147483649 = 2147483647 ∧
      iterations 2147483650 = 0 ∧ ¬ (iterations 2147483649 ≤ iterations 2147483650) := by
  have h1 : iterations 2147483649 = 2147483647 := by
    rw [iterations_eq, int32]; omega
  have h2 : iterations 2147483650 = 0 := by
    rw [iterations_eq, int32]; omega
  refine ⟨by norm_num, h1, h2, ?_⟩
  rw [h1, h2]
  norm_num

/-- C12, amended (delay monotonicity). For all counter values `c1 ≤ c2 ≤ 2147483649`, for
which `swd_delay_cnt - 2` fits the 32-bit signed `cnt`, the delay loop
`for (cnt = swd_delay_cnt - 2; cnt > 0; cnt--)` runs at most as many iterations for `c1` as
for `c2`. -/
theorem C12_delay_monotone (c1 c2 : Nat) (h : c1 ≤ c2) (h2 : c2 ≤ 2147483649) :
    iterations c1 ≤ iterations c2 := by
  rw [iterations_small c1 (by omega), iterations_small c2 h2]
  omega

/-- C12, amended, at the counter values 3 and 10. -/
theorem C12_witness : (3 ≤ 10 ∧ 10 ≤ 2147483649) ∧ iterations 3 ≤ iterations 10 :=
  ⟨⟨by decide, by decide⟩, C12_delay_monotone 3 10 (by decide) (by decide)⟩

/-- C13, at the failing input: at start-up `platform_max_frequency_set(1000000)` gets
1000000 reported by `swdptap_set_frequency` and logs it, and `platform_max_frequency_get()`
then returns 0; the setter never stores the frequency. -/
theorem C13_frequency_not_stored :
    (swdptap_set_frequency 1000000 boot).1 = 1000000 ∧
      (platform_max_frequency_set 1000000 boot).logged = [1000000] ∧
      (platform_max_frequency_set 1000000 boot).frequency = 0 ∧
      platform_max_frequency_get (platform_max_frequency_set 1000000 boot) = 0 := by
  decide

/-- C14, at the failing input: with `ticks = 0`, `jtagtap_tdi_tdo_seq` still gives one clock
pulse, reads input byte 0 and writes output byte 0, whereas `jtagtap_tdi_seq` with
`ticks = 0` does nothing. -/
theorem C14_tdi_tdo_seq_zero_ticks (c : Nat) (t : Target) (out : Nat → Nat) (final_tms : Bool)
    (buf : Nat → Nat) (g : Probe) :
    (jtagtap_tdi_tdo_seq c t out final_tms buf 0 g).2.log =
        g.log ++
          [Action.drive Line.TMS false, Action.drive Line.TMS final_tms, Action.load 0,
            Action.drive Line.TDI ((buf 0).testBit 0), Action.drive Line.TCK true,
            Action.wait (iterations c),
            Action.sample (t final_tms ((buf 0).testBit 0) true
              (jtagtap_tdi_tdo_seq c t out final_tms buf 0 g).2.edges),
            Action.store 0 ((jtagtap_tdi_tdo_seq c t out final_tms buf 0 g).1 0),
            Action.drive Line.TCK false, Action.wait (iterations c)] ∧
      jtagtap_tdi_seq c final_tms buf 0 g = g := by
  constructor
  · rw [jtagtap_tdi_tdo_seq_zero]
    obtain ⟨h1, h2, h3, -⟩ := jtagtap_tdi_tdo_seq_spec c t out final_tms buf 1 g (by norm_num)
    rw [h3, h1, h2]
    simp [trace_zero, tdo_last_pulse, tdoAt, tmsAt, bit, packed]
  · rw [jtagtap_tdi_seq_eq]
    rfl

theorem mem_trace (f : Nat → List Action) (k : Nat) (a : Action) (h : a ∈ trace f k) :
    ∃ i, i < k ∧ a ∈ f i := by
  induction k with
  | zero => simp [trace_zero] at h
  | succ k ih =>
    rw [trace_succ, List.mem_append] at h
    rcases h with h | h
    · obtain ⟨i, hi, hm⟩ := ih h
      exact ⟨i, by omega, hm⟩
    · exact ⟨k, by omega, h⟩

theorem wait_mem_waits (c n : Nat) (h : Action.wait n ∈ waits (branch c)) :
    n = iterations c := by
  unfold branch at h
  split at h
  · simpa [waits] using h
  · simp [waits] at h

theorem wait_mem_tms_pulse (c M i n : Nat) (h : Action.wait n ∈ tms_pulse (branch c) M i) :
    n = iterations c := by
  simp only [tms_pulse, List.mem_append, List.mem_cons, List.mem_singleton, List.not_mem_nil,
    or_false, false_or, reduceCtorEq] at h
  rcases h with h | h <;> exact wait_mem_waits c n h

theorem wait_mem_tdi_pulse (c N : Nat) (f : Bool) (buf : Nat → Nat) (i n : Nat)
    (h : Action.wait n ∈ tdi_pulse (branch c) N f buf i) : n = iterations c := by
  simp only [tdi_pulse, List.mem_append, List.mem_cons, List.mem_singleton, List.not_mem_nil,
    or_false, false_or, reduceCtorEq] at h
  rcases h with h | h <;> exact wait_mem_waits c n h

theorem wait_mem_tdo_pulse (c : Nat) (t : Target) (N : Nat) (f : Bool) (buf : Nat → Nat)
    (g : Probe) (i n : Nat) (h : Action.wait n ∈ tdo_pulse (branch c) t N f buf g i) :
    n = iterations c := by
  by_cases h7 : i % 8 = 7 <;>
    simp only [tdo_pulse, h7, if_true, if_false, List.mem_append, List.mem_cons,
      List.mem_singleton, List.not_mem_nil, or_false, false_or, reduceCtorEq] at h <;>
    rcases h with h | h <;> exact wait_mem_waits c n h

theorem wait_mem_tdi_tdo_seq (c : Nat) (t : Target) (f : Bool) (buf : Nat → Nat) (N : Nat)
    (g : Probe) (n : Nat)
    (h : Action.wait n ∈ Action.drive Line.TMS false ::
      (trace (tdo_pulse (branch c) t N f buf g) (N - 1) ++
        tdo_last_pulse c t N f buf g (N - 1))) : n = iterations c := by
  rw [List.mem_cons, List.mem_append] at h
  rcases h with h | h | h
  · cases h
  · obtain ⟨i, -, hm⟩ := mem_trace _ _ _ h
    exact wait_mem_tdo_pulse c t N f buf g i n hm
  · simp only [tdo_last_pulse, List.mem_cons, List.mem_singleton, List.not_mem_nil,
      or_false, false_or, reduceCtorEq, Action.wait.injEq] at h
    rcases h with h | h <;> exact h

/-- C15, as stated, fails: with `swd_delay_cnt = 5` the delay loops of `jtagtap_next` run 3
iterations, not 5. -/
theorem C15_counterexample :
    Action.wait 3 ∈ (jtagtap_next 5 loopback true false idle).2.log ∧
      ¬ ∀ n, Action.wait n ∈ (jtagtap_next 5 loopback true false idle).2.log → n = 5 := by
  have h : Action.wait 3 ∈ (jtagtap_next 5 loopback true false idle).2.log := by decide
  exact ⟨h, fun hall => absurd (hall 3 h) (by decide)⟩

/-- C15, amended. For every counter value `c ≤ 2147483649`, every delay loop that
`jtagtap_next`, `jtagtap_tms_seq`, `jtagtap_tdi_seq` and `jtagtap_tdi_tdo_seq` execute runs
exactly `c - 2` iterations when `swd_delay_cnt = c`, and none when `c ≤ 2`. -/
theorem C15_delay_iterations (c : Nat) (hc : c ≤ 2147483649) (t : Target) (out : Nat → Nat)
    (tms tdi final_tms : Bool) (buf : Nat → Nat) (MS N : Nat) (g : Probe) :
    (∃ new, (jtagtap_next c t tms tdi g).2.log = g.log ++ new ∧
        ∀ n, Action.wait n ∈ new → n = c - 2) ∧
      (∃ new, (jtagtap_tms_seq c MS N g).log = g.log ++ new ∧
        ∀ n, Action.wait n ∈ new → n = c - 2) ∧
      (∃ new, (jtagtap_tdi_seq c final_tms buf N g).log = g.log ++ new ∧
        ∀ n, Action.wait n ∈ new → n = c - 2) ∧
      ∃ new, (jtagtap_tdi_tdo_seq c t out final_tms buf N g).2.log = g.log ++ new ∧
        ∀ n, Action.wait n ∈ new → n = c - 2 := by
  have hit := iterations_small c hc
  refine ⟨⟨_, (jtagtap_next_spec c t tms tdi g).2.2.1, ?_⟩,
    ⟨_, (jtagtap_tms_seq_spec c MS N g).2.1, ?_⟩,
    ⟨_, (jtagtap_tdi_seq_spec c final_tms buf N g).2.1, ?_⟩, ?_⟩
  · intro n hn
    simp only [next_actions, List.mem_cons, List.mem_singleton, List.not_mem_nil, or_false,
      false_or, reduceCtorEq, Action.wait.injEq] at hn
    rcases hn with hn | hn <;> rw [hn, hit]
  · intro n hn
    rw [List.mem_cons] at hn
    rcases hn with hn | hn
    · cases hn
    · obtain ⟨i, -, hm⟩ := mem_trace _ _ _ hn
      rw [wait_mem_tms_pulse c _ i n hm, hit]
  · intro n hn
    obtain ⟨i, -, hm⟩ := mem_trace _ _ _ hn
    rw [wait_mem_tdi_pulse c N final_tms buf i n hm, hit]
  · rcases Nat.eq_zero_or_pos N with h0 | h1
    · subst h0
      rw [jtagtap_tdi_tdo_seq_zero]
      exact ⟨_, (jtagtap_tdi_tdo_seq_spec c t out final_tms buf 1 g (by norm_num)).2.2.1,
        fun n hn => by rw [wait_mem_tdi_tdo_seq c t final_tms buf 1 g n hn, hit]⟩
    · exact ⟨_, (jtagtap_tdi_tdo_seq_spec c t out final_tms buf N g h1).2.2.1,
        fun n hn => by rw [wait_mem_tdi_tdo_seq c t final_tms buf N g n hn, hit]⟩

/-- C15, amended, with the counter at 7: every delay loop runs 5 iterations. -/
theorem C15_witness :
    7 ≤ 2147483649 ∧
      ((∃ new, (jtagtap_next 7 loopback true false idle).2.log = idle.log ++ new ∧
          ∀ n, Action.wait n ∈ new → n = 7 - 2) ∧
        (∃ new, (jtagtap_tms_seq 7 22 5 idle).log = idle.log ++ new ∧
          ∀ n, Action.wait n ∈ new → n = 7 - 2) ∧
        (∃ new, (jtagtap_tdi_seq 7 true (fun _ => 165) 5 idle).log = idle.log ++ new ∧
          ∀ n, Action.wait n ∈ new → n = 7 - 2) ∧
        ∃ new, (jtagtap_tdi_tdo_seq 7 loopback (fun _ => 0) true (fun _ => 165) 5 idle).2.log =
            idle.log ++ new ∧
          ∀ n, Action.wait n ∈ new → n = 7 - 2) :=
  ⟨by decide,
    C15_delay_iterations 7 (by decide) loopback (fun _ => 0) true false true (fun _ => 165) 22 5
      idle⟩

theorem storesOf_append (a b : List Action) :
    storesOf (a ++ b) = storesOf a ++ storesOf b := by
  simp [storesOf]

theorem storesOf_tdo_pulse (d : Option Nat) (t : Target) (N : Nat) (f : Bool)
    (buf : Nat → Nat) (g : Probe) (i : Nat) :
    storesOf (tdo_pulse d t N f buf g i) = if i % 8 = 7 then [i / 8] else [] := by
  by_cases h7 : i % 8 = 7 <;> cases d <;> simp [tdo_pulse, waits, storesOf, h7]

theorem storesOf_trace_tdo (d : Option Nat) (t : Target) (N : Nat) (f : Bool)
    (buf : Nat → Nat) (g : Probe) (k : Nat) :
    storesOf (trace (tdo_pulse d t N f buf g) k) = List.range (k / 8) := by
  induction k with
  | zero => rfl
  | succ k ih =>
    rw [trace_succ, storesOf_append, ih, storesOf_tdo_pulse]
    by_cases h7 : k % 8 = 7
    · rw [if_pos h7, show (k + 1) / 8 = k / 8 + 1 by omega, List.range_succ]
    · rw [if_neg h7, show (k + 1) / 8 = k / 8 by omega, List.append_nil]

theorem storesOf_tdo_last_pulse (c : Nat) (t : Target) (N : Nat) (f : Bool)
    (buf : Nat → Nat) (g : Probe) (i : Nat) :
    storesOf (tdo_last_pulse c t N f buf g i) = [i / 8] := by
  simp [tdo_last_pulse, storesOf]

/-- C16 (output buffer footprint). For every `N ≥ 1`, `jtagtap_tdi_tdo_seq` writes exactly
the output bytes `0 .. ⌈N/8⌉ - 1`, each once and in increasing order, leaves every output
byte at index `⌈N/8⌉` or beyond unchanged, and, when `N` is not a multiple of 8, leaves 0 in
every bit position `N mod 8` or above of the last byte written. -/
theorem C16_output_footprint (c : Nat) (t : Target) (out : Nat → Nat) (final_tms : Bool)
    (buf : Nat → Nat) (N : Nat) (g : Probe) (hN : 1 ≤ N) :
    (∃ new, (jtagtap_tdi_tdo_seq c t out final_tms buf N g).2.log = g.log ++ new ∧
        storesOf new = List.range ((N + 7) / 8)) ∧
      (∀ b, (N + 7) / 8 ≤ b → (jtagtap_tdi_tdo_seq c t out final_tms buf N g).1 b = out b) ∧
      (N % 8 ≠ 0 → ∀ j, N % 8 ≤ j →
        ((jtagtap_tdi_tdo_seq c t out final_tms buf N g).1 ((N + 7) / 8 - 1)).testBit j =
          false) := by
  obtain ⟨h1, -, h3, -⟩ := jtagtap_tdi_tdo_seq_spec c t out final_tms buf N g hN
  refine ⟨⟨_, h3, ?_⟩, ?_, ?_⟩
  · rw [show ∀ (a : Action) (l : List Action), a :: l = [a] ++ l from fun _ _ => rfl,
      storesOf_append, storesOf_append, storesOf_trace_tdo, storesOf_tdo_last_pulse,
      show (N + 7) / 8 = (N - 1) / 8 + 1 by omega, List.range_succ]
    rfl
  · intro b hb
    have hlt : ¬ (8 * b < N) := by omega
    rw [h1, packed, if_neg hlt]
  · intro hm j hj
    have hlt : 8 * ((N + 7) / 8 - 1) < N := by omega
    have hmin : min 8 (N - 8 * ((N + 7) / 8 - 1)) = N % 8 := by omega
    have hnj : ¬ (j < N % 8) := by omega
    rw [h1, packed, if_pos hlt, hmin, testBit_pack]
    simp [hnj]

/-- C16 for eleven bits against the loopback fixture. -/
theorem C16_witness :
    1 ≤ 11 ∧
      ((∃ new, (jtagtap_tdi_tdo_seq 0 loopback (fun _ => 255) true (fun _ => 255) 11 idle).2.log =
            idle.log ++ new ∧
          storesOf new = List.range ((11 + 7) / 8)) ∧
        (∀ b, (11 + 7) / 8 ≤ b →
          (jtagtap_tdi_tdo_seq 0 loopback (fun _ => 255) true (fun _ => 255) 11 idle).1 b =
            (fun _ => 255) b) ∧
        (11 % 8 ≠ 0 → ∀ j, 11 % 8 ≤ j →
          ((jtagtap_tdi_tdo_seq 0 loopback (fun _ => 255) true (fun _ => 255) 11 idle).1
            ((11 + 7) / 8 - 1)).testBit j = false)) :=
  ⟨by decide,
    C16_output_footprint 0 loopback (fun _ => 255) true (fun _ => 255) 11 idle (by decide)⟩

end Farpatch
